import Mathlib

set_option maxRecDepth 4000
set_option exponentiation.threshold 1100

/-!
# Verification of the shared-memory ring buffer and streaming vibration detector

Shallow embedding, in Lean 4, of the core of the `mac-keyboard-brightness`
motion-sensing codebase:

* `Spu` — the shared-memory ring buffer of `spu_sensor.py`
  (`shm_write_sample` / `shm_read_new`), modelled at the level of the header
  fields and the slot array.  Machine integers are modelled by `Nat`/`Int`;
  the `struct.pack`/`struct.unpack` round trip for in-range `i32`/`u32`/`u64`
  values is the identity, which the range hypotheses of the theorems record.
* `ShmBytes` — a byte-exact model of `shm_write_sample`, used for the
  frame/footprint property of the write.
* `SigStream` — `read_header` of `toolkit/signal_stream.py`, together with a
  model of Python's `float()` string parser (`PyFloat`, covering `nan`,
  `inf`, underscores in digit groups, and overflow/underflow-to-zero of the
  IEEE double rounding; the in-range rounding error of the mantissa is not
  modelled, only the sign and zero/nonzero/overflow behaviour that the
  positivity checks depend on).
* `Motion` — the `VibrationDetector` of `motion_live.py` with `fs = 100`
  (the value the program constructs it with).  Floating-point literals are
  modelled by the corresponding exact rationals; `math.sqrt` and the two
  π-dependent heartbeat filter coefficients are abstract parameters of the
  model (every theorem below holds for all values of those parameters).
-/

namespace Spu

/-- Ring capacity, `RING_CAP = 8000` in `spu_sensor.py`. -/
def RING_CAP : ℕ := 8000

/-- Fixed-point scale, `ACCEL_SCALE = 65536.0`. -/
def ACCEL_SCALE : ℚ := 65536

/-- One ring entry: the three raw `i32` components of a sample. -/
abbrev RawSample := ℤ × ℤ × ℤ

/-- The shared-memory region, at the granularity of its layout:
header fields `write_idx` (u32), `total` (u64), `restarts` (u32) and the
slot array.  `slots` is total on `ℕ`; only indices `< RING_CAP` are ever
read or written. -/
structure Shm where
  write_idx : ℕ
  total : ℕ
  restarts : ℕ
  slots : ℕ → RawSample

/-- The zero-initialized region created by `main()` in `motion_live.py`
(every byte of the shared memory is zeroed). -/
def initShm : Shm :=
  { write_idx := 0, total := 0, restarts := 0, slots := fun _ => (0, 0, 0) }

/-- `shm_write_sample(buf, x, y, z)`: store the sample at the current
`write_idx`, advance `write_idx` by one modulo `RING_CAP`, increment
`total`. -/
def shm_write_sample (s : Shm) (x y z : ℤ) : Shm :=
  { s with
      slots := Function.update s.slots s.write_idx (x, y, z)
      write_idx := (s.write_idx + 1) % RING_CAP
      total := s.total + 1 }

/-- Fixed-point to float conversion performed by `shm_read_new`:
each component is divided by `ACCEL_SCALE` (exact for doubles, since the
scale is a power of two and the numerators are `i32`). -/
def scaleSample (v : RawSample) : ℚ × ℚ × ℚ :=
  (v.1 / ACCEL_SCALE, v.2.1 / ACCEL_SCALE, v.2.2 / ACCEL_SCALE)

/-- `shm_read_new(buf, last_total)`: number of unseen samples
`n_new = total - last_total`, clamped to `RING_CAP`; the most recent
`n_new` slots ending at `write_idx - 1` are returned oldest first, scaled,
together with the new `total`. -/
def shm_read_new (s : Shm) (last_total : ℕ) : List (ℚ × ℚ × ℚ) × ℕ :=
  let n_int : ℤ := (s.total : ℤ) - (last_total : ℤ)
  if n_int ≤ 0 then ([], s.total)
  else
    let n : ℕ := if (RING_CAP : ℤ) < n_int then RING_CAP else n_int.toNat
    let start : ℕ := (((s.write_idx : ℤ) - (n : ℤ)) % (RING_CAP : ℤ)).toNat
    (((List.range n).map fun i => scaleSample (s.slots ((start + i) % RING_CAP))),
      s.total)

/-- Apply `shm_write_sample` for each sample of a list, in order. -/
def writeAll (s : Shm) (ws : List RawSample) : Shm :=
  ws.foldl (fun a v => shm_write_sample a v.1 v.2.1 v.2.2) s

theorem writeAll_append (s : Shm) (ws : List RawSample) (v : RawSample) :
    writeAll s (ws ++ [v]) = shm_write_sample (writeAll s ws) v.1 v.2.1 v.2.2 := by
  simp [writeAll, List.foldl_append]

theorem total_writeAll (s : Shm) (ws : List RawSample) :
    (writeAll s ws).total = s.total + ws.length := by
  induction ws using List.reverseRecOn with
  | nil => simp [writeAll]
  | append_singleton ws v ih =>
      simp [writeAll_append, shm_write_sample, ih]
      omega

theorem restarts_writeAll (s : Shm) (ws : List RawSample) :
    (writeAll s ws).restarts = s.restarts := by
  induction ws using List.reverseRecOn with
  | nil => simp [writeAll]
  | append_singleton ws v ih => simp [writeAll_append, shm_write_sample, ih]

theorem write_idx_writeAll (s : Shm) (ws : List RawSample)
    (h : s.write_idx < RING_CAP) :
    (writeAll s ws).write_idx = (s.write_idx + ws.length) % RING_CAP := by
  induction ws using List.reverseRecOn with
  | nil => simpa [writeAll] using (Nat.mod_eq_of_lt h).symm
  | append_singleton ws v ih =>
      simp only [writeAll_append, shm_write_sample, ih, List.length_append,
        List.length_singleton, RING_CAP]
      omega

/-- After writing `ws` into the fresh region, the slot `k % RING_CAP` holds
the `k`-th written sample, provided write `k` is among the most recent
`RING_CAP` writes (no later write has reclaimed the slot). -/
theorem slots_writeAll (ws : List RawSample) (k : ℕ)
    (hk : k < ws.length) (hrecent : ws.length ≤ k + RING_CAP) :
    (writeAll initShm ws).slots (k % RING_CAP) = ws.get ⟨k, hk⟩ := by
  induction ws using List.reverseRecOn with
  | nil => simp at hk
  | append_singleton ws v ih =>
      have hidx : (writeAll initShm ws).write_idx = ws.length % RING_CAP := by
        simpa [initShm] using
          write_idx_writeAll initShm ws (by simp [initShm, RING_CAP])
      rw [writeAll_append]
      simp only [shm_write_sample, hidx]
      rcases Nat.lt_or_ge k ws.length with hlt | hge
      · have hne : k % RING_CAP ≠ ws.length % RING_CAP := by
          have hlen : (ws ++ [v]).length = ws.length + 1 := by simp
          rw [hlen] at hrecent
          simp only [RING_CAP] at hrecent ⊢
          omega
        rw [Function.update_noteq hne]
        have hrec : ws.length ≤ k + RING_CAP := by
          simp only [List.length_append, List.length_singleton] at hrecent
          omega
        rw [ih hlt hrec]
        exact (List.get_append_left _ _ _).symm
      · have hkeq : k = ws.length := by
          simp only [List.length_append, List.length_singleton] at hk
          omega
        subst hkeq
        rw [Function.update_same]
        have : (ws ++ [v]).get ⟨ws.length, hk⟩ = v := by
          simp
        rw [this]

/-- Reading everything (`last_total = 0`) after `ws` has been written into a
fresh region returns the most recent `min (length ws) RING_CAP` samples,
oldest first and scaled, together with the total count. -/
theorem read_writeAll (ws : List RawSample) :
    shm_read_new (writeAll initShm ws) 0 =
      ((ws.drop (ws.length - min ws.length RING_CAP)).map scaleSample,
        ws.length) := by
  have htot : (writeAll initShm ws).total = ws.length := by
    simpa [initShm] using total_writeAll initShm ws
  have hidx : (writeAll initShm ws).write_idx = ws.length % RING_CAP := by
    simpa [initShm] using
      write_idx_writeAll initShm ws (by simp [initShm, RING_CAP])
  rcases Nat.eq_zero_or_pos ws.length with h0 | hpos
  · rw [List.length_eq_zero] at h0
    subst h0
    simp [shm_read_new, writeAll, initShm]
  · set L := ws.length with hL
    have hn0 : ¬ ((L : ℤ) - (0 : ℕ) ≤ 0) := by
      push_cast
      omega
    rw [shm_read_new, htot, hidx]
    simp only [hn0, if_false]
    set n : ℕ := if (RING_CAP : ℤ) < ((L : ℤ) - ((0 : ℕ) : ℤ)) then RING_CAP
      else ((L : ℤ) - ((0 : ℕ) : ℤ)).toNat with hn
    have hnval : n = min L RING_CAP := by
      rw [hn]
      split <;> push_cast at * <;> omega
    have hnle : n ≤ L := by omega
    have hncap : n ≤ RING_CAP := by omega
    set start : ℕ := (((L % RING_CAP : ℕ) : ℤ) - (n : ℤ)) % (RING_CAP : ℤ)
      |>.toNat with hstart
    apply Prod.ext
    · show (List.range n).map
        (fun i => scaleSample ((writeAll initShm ws).slots ((start + i) % RING_CAP)))
        = (ws.drop (L - min L RING_CAP)).map scaleSample
      rw [← hnval]
      apply List.ext_get
      · simp only [List.length_map, List.length_range, List.length_drop]
        omega
      · intro i h1 h2
        simp only [List.get_map, List.get_range]
        have hi : i < n := by simpa using h1
        have hmod : (start + i) % RING_CAP = (L - n + i) % RING_CAP := by
          simp only [hstart, RING_CAP] at *
          omega
        rw [hmod]
        have hk : L - n + i < L := by omega
        have hrecent : L ≤ (L - n + i) + RING_CAP := by omega
        rw [slots_writeAll ws (L - n + i) hk hrecent]
        congr 1
        have : (ws.drop (L - n)).get ⟨i, by simp only [List.length_drop]; omega⟩ =
            ws.get ⟨L - n + i, hk⟩ := by
          rw [List.get_drop]
        exact this.symm
    · rfl

/-- In-range side condition for `struct.pack_into('<iii', ...)`: each
component of each written sample is a signed 32-bit integer (out-of-range
values would make the Python write raise instead of storing). -/
def SamplesInRange (ws : List RawSample) : Prop :=
  ∀ v ∈ ws, (-(2 ^ 31) ≤ v.1 ∧ v.1 < 2 ^ 31) ∧
    (-(2 ^ 31) ≤ v.2.1 ∧ v.2.1 < 2 ^ 31) ∧
    (-(2 ^ 31) ≤ v.2.2 ∧ v.2.2 < 2 ^ 31)

instance (ws : List RawSample) : Decidable (SamplesInRange ws) := by
  unfold SamplesInRange
  infer_instance

/-- C1.  For every sequence of `N` writes via `shm_write_sample` into a
zero-initialized ring buffer, followed by one `shm_read_new` with
`last_total = 0`: if `N ≤ RING_CAP` (8000) the read returns exactly the `N`
written samples in write order, and if `N > RING_CAP` it returns exactly
the most recent `RING_CAP` samples, oldest first, older samples discarded;
each component is returned as the written `i32` divided by the scale
65536. -/
theorem shm_write_read_roundtrip (ws : List RawSample)
    (hrange : SamplesInRange ws) (hcount : ws.length < 2 ^ 64) :
    (ws.length ≤ RING_CAP →
      shm_read_new (writeAll initShm ws) 0 = (ws.map scaleSample, ws.length)) ∧
    (RING_CAP < ws.length →
      shm_read_new (writeAll initShm ws) 0 =
        ((ws.drop (ws.length - RING_CAP)).map scaleSample, ws.length)) := by
  constructor
  · intro hle
    rw [read_writeAll]
    have : ws.length - min ws.length RING_CAP = 0 := by omega
    rw [this, List.drop_zero]
  · intro hlt
    rw [read_writeAll]
    have : min ws.length RING_CAP = RING_CAP := by omega
    rw [this]

/-- Witness for `shm_write_read_roundtrip` at a concrete two-sample write
sequence. -/
theorem shm_write_read_roundtrip_witness :
    SamplesInRange [((1 : ℤ), (2 : ℤ), (3 : ℤ)), (-65536, 0, 2147483647)] ∧
    ([((1 : ℤ), (2 : ℤ), (3 : ℤ)), (-65536, 0, 2147483647)].length < 2 ^ 64) ∧
    shm_read_new
      (writeAll initShm [((1 : ℤ), (2 : ℤ), (3 : ℤ)), (-65536, 0, 2147483647)]) 0 =
      ([((1 : ℤ), (2 : ℤ), (3 : ℤ)), (-65536, 0, 2147483647)].map scaleSample, 2) :=
  ⟨by decide, by decide,
    (shm_write_read_roundtrip _ (by decide) (by decide)).1 (by decide)⟩

end Spu

namespace ShmBytes

/-- Byte-exact model of the shared-memory write.  The buffer is a total map
from byte offset to byte value. -/
def Buf := ℕ → ℕ

/-- `RING_CAP` (entries). -/
def RING_CAP : ℕ := 8000

/-- `RING_ENTRY` (bytes per slot). -/
def RING_ENTRY : ℕ := 12

/-- `SHM_HEADER` (bytes before the slot array). -/
def SHM_HEADER : ℕ := 16

/-- Little-endian unsigned decoding of `width` bytes at `off`
(`struct.unpack_from`). -/
def unpack_from (width off : ℕ) (buf : Buf) : ℕ :=
  match width with
  | 0 => 0
  | w + 1 => buf off + 256 * unpack_from w (off + 1) buf

/-- Little-endian unsigned encoding of `v` into `width` bytes at `off`
(`struct.pack_into`); bytes outside `[off, off + width)` are untouched. -/
def pack_into (width off v : ℕ) (buf : Buf) : Buf :=
  fun p => if off ≤ p ∧ p < off + width then v / 256 ^ (p - off) % 256 else buf p

/-- Two's-complement encoding of an `i32` as its unsigned `u32` image
(the byte image `struct.pack('<i', x)` writes, for in-range `x`). -/
def toU32 (x : ℤ) : ℕ := (x % 2 ^ 32).toNat

/-- `shm_write_sample(buf, x, y, z)` at byte level: pack the three `i32`
components at the slot of the current `write_idx`, then the advanced
`write_idx` at offset 0, then the incremented `total` at offset 4. -/
def shm_write_sample (buf : Buf) (x y z : ℤ) : Buf :=
  let idx := unpack_from 4 0 buf
  let off := SHM_HEADER + idx * RING_ENTRY
  let b1 := pack_into 4 off (toU32 x) buf
  let b2 := pack_into 4 (off + 4) (toU32 y) b1
  let b3 := pack_into 4 (off + 8) (toU32 z) b2
  let b4 := pack_into 4 0 ((idx + 1) % RING_CAP) b3
  let total := unpack_from 8 4 b4
  pack_into 8 4 (total + 1) b4

/-- C10.  `shm_write_sample` modifies only the `write_idx` field (bytes
0–3), the `total` field (bytes 4–11) and the single 12-byte slot at the
pre-write `write_idx`; the `restarts` field (bytes 12–15) and every byte of
every other slot are unchanged.  The hypotheses record the
`struct.pack` range conditions under which the Python write succeeds. -/
theorem shm_write_sample_frame (buf : Buf) (x y z : ℤ) (p : ℕ)
    (hx : -(2 ^ 31) ≤ x ∧ x < 2 ^ 31) (hy : -(2 ^ 31) ≤ y ∧ y < 2 ^ 31)
    (hz : -(2 ^ 31) ≤ z ∧ z < 2 ^ 31)
    (htotal : unpack_from 8 4 buf ≠ 2 ^ 64 - 1)
    (hp : 12 ≤ p)
    (hslot : p < SHM_HEADER + unpack_from 4 0 buf * RING_ENTRY ∨
      SHM_HEADER + unpack_from 4 0 buf * RING_ENTRY + RING_ENTRY ≤ p) :
    shm_write_sample buf x y z p = buf p := by
  have hoff : 16 ≤ SHM_HEADER + unpack_from 4 0 buf * RING_ENTRY := by
    simp only [SHM_HEADER]
    omega
  simp only [shm_write_sample, pack_into, SHM_HEADER, RING_ENTRY] at *
  split
  · omega
  · split
    · omega
    · split
      · omega
      · split
        · omega
        · split
          · omega
          · rfl

/-- Witness for `shm_write_sample_frame`: a write into the zeroed buffer
leaves the restart-count byte at offset 12 unchanged. -/
theorem shm_write_sample_frame_witness :
    (unpack_from 8 4 (fun _ => 0) ≠ 2 ^ 64 - 1) ∧
    ((12 : ℕ) < SHM_HEADER + unpack_from 4 0 (fun _ => 0) * RING_ENTRY) ∧
    shm_write_sample (fun _ => 0) 7 (-8) 9 12 = (fun _ => (0 : ℕ)) 12 :=
  ⟨by decide, by decide,
    shm_write_sample_frame (fun _ => 0) 7 (-8) 9 12
      (by decide) (by decide) (by decide) (by decide) (by decide)
      (Or.inl (by decide))⟩

end ShmBytes

namespace SigStream

/-- A Python float value as far as the sign/zero/comparison behaviour of
`read_header` can observe it: a finite value (exact rational), `nan`,
`inf` or `-inf`. -/
inductive PyFloat where
  | fin (q : ℚ)
  | nan
  | inf
  | ninf
deriving DecidableEq

/-- The Python comparison `v <= 0` (IEEE semantics: `nan <= 0` is false). -/
def PyFloat.leZero : PyFloat → Bool
  | .fin q => decide (q ≤ 0)
  | .nan => false
  | .inf => false
  | .ninf => true

/-- The Python comparison `v > 0`. -/
def PyFloat.isPos : PyFloat → Bool
  | .fin q => decide (0 < q)
  | .nan => false
  | .inf => true
  | .ninf => false

/-- A byte that decodes to an ASCII decimal digit. -/
def isDigit (c : ℕ) : Bool := 48 ≤ c && c ≤ 57

/-- ASCII whitespace stripped by `str.strip()` (space, tab, LF, VT, FF,
CR, and the separator controls FS, GS, RS, US — `"\x1c".isspace()` holds
in Python). -/
def isWs (c : ℕ) : Bool :=
  c = 32 || c = 9 || c = 10 || c = 11 || c = 12 || c = 13 ||
  c = 28 || c = 29 || c = 30 || c = 31

/-- `str.strip()` on a byte string. -/
def stripWs (l : List ℕ) : List ℕ :=
  ((l.dropWhile isWs).reverse.dropWhile isWs).reverse

/-- ASCII lowercase of a byte list (for the case-insensitive `inf`,
`infinity`, `nan` spellings accepted by `float()`). -/
def toLowerList (l : List ℕ) : List ℕ :=
  l.map fun c => if 65 ≤ c && c ≤ 90 then c + 32 else c

/-- No two adjacent underscores. -/
def noDoubleUnderscore : List ℕ → Bool
  | [] => true
  | [_] => true
  | a :: b :: t => !(a = 95 && b = 95) && noDoubleUnderscore (b :: t)

/-- Parse one digit group of a Python float literal: a maximal run of
digits and underscores, which is valid when nonempty, delimited by digits,
and has no doubled underscore (`float("1_0")` is 10, `float("1__0")`,
`float("_1")`, `float("1_")` are `ValueError`s).  Returns the value, the
number of digits, and the rest of the input. -/
def parseGroup (cs : List ℕ) : Option (ℕ × ℕ × List ℕ) :=
  let grp := cs.takeWhile fun c => isDigit c || c = 95
  let rest := cs.dropWhile fun c => isDigit c || c = 95
  if grp = [] then none
  else if isDigit (grp.headD 0) && isDigit (grp.getLastD 0) &&
      noDoubleUnderscore grp then
    let ds := grp.filter isDigit
    some (ds.foldl (fun v c => 10 * v + (c - 48)) 0, ds.length, rest)
  else none

/-- Leading `+`/`-` sign: returns whether the value is negated and the
rest. -/
def parseSign : List ℕ → Bool × List ℕ
  | 43 :: cs => (false, cs)
  | 45 :: cs => (true, cs)
  | cs => (false, cs)

/-- Smallest positive decimal magnitude that does not round to an IEEE
double zero (half the least subnormal; ties round to even, i.e. to
zero). -/
def TINY : ℚ := mkRat 1 (2 ^ 1075)

/-- Decimal magnitudes at least this large round to an IEEE double
infinity. -/
def OVERFLOW : ℚ := ((2 ^ 1024 - 2 ^ 970 : ℕ) : ℚ)

/-- Round an exactly-parsed decimal value the way `float()` does at the
extremes: overflow to a signed infinity, underflow to zero.  In-range
values keep their exact rational magnitude in this model (IEEE rounding
within the finite range is not observable by the sign checks of
`read_header`). -/
def roundToDouble (q : ℚ) : PyFloat :=
  if OVERFLOW ≤ |q| then (if q < 0 then .ninf else .inf)
  else if |q| ≤ TINY then .fin 0
  else .fin q

/-- Parse the mantissa-and-exponent form of a Python float literal (sign
already consumed), or fail as `float()` does. -/
def parseNumber (neg : Bool) (cs : List ℕ) : Option PyFloat :=
  let mant : Option (ℚ × List ℕ) :=
    match cs with
    | 46 :: cs2 =>
        match parseGroup cs2 with
        | some (fv, fc, rest) => some (mkRat fv (10 ^ fc), rest)
        | none => none
    | _ =>
        match parseGroup cs with
        | some (iv, _, rest1) =>
            match rest1 with
            | 46 :: rest2 =>
                match parseGroup rest2 with
                | some (fv, fc, rest3) =>
                    some ((iv : ℚ) + mkRat fv (10 ^ fc), rest3)
                | none => some ((iv : ℚ), rest2)
            | _ => some ((iv : ℚ), rest1)
        | none => none
  match mant with
  | none => none
  | some (m, rest) =>
      let withExp : Option ℚ :=
        match rest with
        | 101 :: r1 =>
            let (eneg, r2) := parseSign r1
            match parseGroup r2 with
            | some (ev, _, r3) =>
                if r3 = [] then
                  some (if eneg then m * mkRat 1 (10 ^ ev)
                    else m * ((10 ^ ev : ℕ) : ℚ))
                else none
            | none => none
        | 69 :: r1 =>
            let (eneg, r2) := parseSign r1
            match parseGroup r2 with
            | some (ev, _, r3) =>
                if r3 = [] then
                  some (if eneg then m * mkRat 1 (10 ^ ev)
                    else m * ((10 ^ ev : ℕ) : ℚ))
                else none
            | none => none
        | [] => some m
        | _ => none
      match withExp with
      | none => none
      | some q0 => some (roundToDouble (if neg then -q0 else q0))

/-- Python's `float(string)` on a stripped ASCII byte string: an optional
sign followed by `inf`, `infinity`, `nan` (case-insensitive) or a decimal
literal; `none` models the `ValueError`. -/
def pyFloatParse (cs : List ℕ) : Option PyFloat :=
  let (neg, cs1) := parseSign cs
  let low := toLowerList cs1
  if low = [105, 110, 102] || low = [105, 110, 102, 105, 110, 105, 116, 121] then
    some (if neg then .ninf else .inf)
  else if low = [110, 97, 110] then some .nan
  else parseNumber neg cs1

/-- `rate_bytes.decode("ascii", errors="strict")` followed by `.strip()`
and `float(...)`: a non-ASCII byte raises `UnicodeDecodeError`, which is a
`ValueError` and is caught by the same handler as a malformed literal. -/
def pyFloatOfBytes (bs : List ℕ) : Option PyFloat :=
  if bs.all (fun c => c < 128) then pyFloatParse (stripWs bs) else none

/-- The `MSIG1 ` magic, as ASCII bytes. -/
def MAGIC : List ℕ := [77, 83, 73, 71, 49, 32]

/-- Bytes collected by the header rate loop: at most 20 reads, stopping at
a newline or end of stream. -/
def readRateBytes : ℕ → List ℕ → List ℕ
  | 0, _ => []
  | _ + 1, [] => []
  | n + 1, b :: bs => if b = 10 then [] else b :: readRateBytes n bs

/-- Result of `read_header`: end-of-input (`EOFError`), a
`StreamFormatError`, or the sample rate together with the already-consumed
prefix bytes. -/
inductive HdrResult where
  | eofError
  | streamFormatError
  | ok (rate : PyFloat) (pre : List ℕ)
deriving DecidableEq

/-- `read_header(stream, raw=raw, sample_rate=r?)` over a byte-list
stream: `prefix = stream.read(6)` is `stream.take 6` and the rate line is
read from `stream.drop 6`. -/
def read_header (stream : List ℕ) (raw : Bool) (r? : Option PyFloat) :
    HdrResult :=
  if stream.take 6 = [] then .eofError
  else if stream.take 6 = MAGIC then
    if readRateBytes 20 (stream.drop 6) = [] then .streamFormatError
    else
      match pyFloatOfBytes (readRateBytes 20 (stream.drop 6)) with
      | none => .streamFormatError
      | some rate =>
          if rate.leZero then .streamFormatError else .ok rate []
  else if raw then
    match r? with
    | none => .streamFormatError
    | some r => if r.leZero then .streamFormatError else .ok r (stream.take 6)
  else .streamFormatError

/-- A rate that passes the `<= 0` rejection is positive unless it is
`nan`. -/
theorem leZero_false_isPos (v : PyFloat) (hv : v.leZero = false)
    (hn : v ≠ .nan) : v.isPos = true := by
  cases v with
  | fin q =>
      simp only [PyFloat.leZero, decide_eq_false_iff_not, not_le] at hv
      simpa [PyFloat.isPos] using hv
  | nan => exact absurd rfl hn
  | inf => rfl
  | ninf => simp [PyFloat.leZero] at hv

/-- C8, counterexample.  The stream `b"MSIG1 nan\n"` declares the rate
`nan`: `float("nan")` parses, `nan <= 0` is false, so `read_header`
returns without raising `StreamFormatError` — yet the returned rate is not
positive.  (`[110, 97, 110]` is ASCII `nan`.) -/
theorem read_header_nan_counterexample :
    read_header (MAGIC ++ [110, 97, 110, 10]) false none = .ok .nan [] ∧
    PyFloat.isPos .nan = false := by
  constructor
  · decide
  · rfl

/-- C8, amended.  `read_header` raises `StreamFormatError` exactly when
the stream is nonempty and either (i) it begins with the `MSIG1 ` magic
and the declared rate is missing, malformed (a `float()` `ValueError`,
including non-ASCII bytes) or compares `<= 0`; or (ii) raw mode is on, the
stream does not begin with the magic, and no out-of-band rate passing the
`> 0` check was supplied; or (iii) raw mode is off and the stream does not
begin with the magic.  In every non-error case it returns the declared
rate (magic case, with an empty prefix) or the supplied rate together with
the consumed 6-byte prefix (raw case); the returned rate passes the
`<= 0` check, hence is positive whenever it is not `nan`. -/
theorem read_header_spec (stream : List ℕ) (raw : Bool) (r? : Option PyFloat) :
    (read_header stream raw r? = .streamFormatError ↔
      stream ≠ [] ∧
      ((stream.take 6 = MAGIC ∧
          (readRateBytes 20 (stream.drop 6) = [] ∨
           pyFloatOfBytes (readRateBytes 20 (stream.drop 6)) = none ∨
           (∃ q, pyFloatOfBytes (readRateBytes 20 (stream.drop 6)) = some q ∧
             q.leZero = true))) ∨
       (stream.take 6 ≠ MAGIC ∧ raw = true ∧
          (r? = none ∨ ∃ v, r? = some v ∧ v.leZero = true)) ∨
       (stream.take 6 ≠ MAGIC ∧ raw = false))) ∧
    (∀ rate pre, read_header stream raw r? = .ok rate pre →
      rate.leZero = false ∧ (rate ≠ .nan → rate.isPos = true) ∧
      ((stream.take 6 = MAGIC ∧ pre = [] ∧
          pyFloatOfBytes (readRateBytes 20 (stream.drop 6)) = some rate) ∨
       (stream.take 6 ≠ MAGIC ∧ raw = true ∧ r? = some rate ∧
          pre = stream.take 6))) := by
  have htake : stream.take 6 = [] ↔ stream = [] := by
    rw [List.take_eq_nil_iff]
    simp
  by_cases h0 : stream.take 6 = []
  · have hs : stream = [] := htake.mp h0
    have heval : read_header stream raw r? = .eofError := by
      simp only [read_header]
      rw [if_pos h0]
    rw [heval]
    constructor
    · simp [hs]
    · intro rate pre h
      simp at h
  · have hsne : stream ≠ [] := fun h => h0 (htake.mpr h)
    by_cases hm : stream.take 6 = MAGIC
    · by_cases hrb : readRateBytes 20 (stream.drop 6) = []
      · have heval : read_header stream raw r? = .streamFormatError := by
          simp only [read_header]
          rw [if_neg h0, if_pos hm, if_pos hrb]
        rw [heval]
        constructor
        · exact ⟨fun _ => ⟨hsne, Or.inl ⟨hm, Or.inl hrb⟩⟩, fun _ => rfl⟩
        · intro rate pre h
          simp at h
      · cases hpf : pyFloatOfBytes (readRateBytes 20 (stream.drop 6)) with
        | none =>
            have heval : read_header stream raw r? = .streamFormatError := by
              simp only [read_header]
              rw [if_neg h0, if_pos hm, if_neg hrb, hpf]
            rw [heval]
            constructor
            · exact ⟨fun _ => ⟨hsne, Or.inl ⟨hm, Or.inr (Or.inl rfl)⟩⟩,
                fun _ => rfl⟩
            · intro rate pre h
              simp at h
        | some q =>
            by_cases hq : q.leZero = true
            · have heval : read_header stream raw r? = .streamFormatError := by
                simp only [read_header]
                rw [if_neg h0, if_pos hm, if_neg hrb, hpf]
                simp only [hq, if_true]
              rw [heval]
              constructor
              · exact ⟨fun _ =>
                  ⟨hsne, Or.inl ⟨hm, Or.inr (Or.inr ⟨q, rfl, hq⟩)⟩⟩,
                  fun _ => rfl⟩
              · intro rate pre h
                simp at h
            · rw [Bool.not_eq_true] at hq
              have heval : read_header stream raw r? = .ok q [] := by
                simp only [read_header]
                rw [if_neg h0, if_pos hm, if_neg hrb, hpf]
                simp only [hq, Bool.false_eq_true, if_false]
              rw [heval]
              constructor
              · constructor
                · intro h
                  simp at h
                · rintro ⟨-, h | h | h⟩
                  · rcases h.2 with h' | h' | ⟨v, hv, hvz⟩
                    · exact absurd h' hrb
                    · simp at h'
                    · rw [Option.some.injEq] at hv
                      subst hv
                      rw [hvz] at hq
                      simp at hq
                  · exact absurd hm h.1
                  · exact absurd hm h.1
              · intro rate pre h
                rw [HdrResult.ok.injEq] at h
                obtain ⟨h1, h2⟩ := h
                subst h1
                subst h2
                exact ⟨hq, leZero_false_isPos _ hq, Or.inl ⟨hm, rfl, rfl⟩⟩
    · cases raw with
      | false =>
          have heval : read_header stream false r? = .streamFormatError := by
            simp only [read_header]
            rw [if_neg h0, if_neg hm]
            simp
          rw [heval]
          constructor
          · exact ⟨fun _ => ⟨hsne, Or.inr (Or.inr ⟨hm, rfl⟩)⟩, fun _ => rfl⟩
          · intro rate pre h
            simp at h
      | true =>
          cases r? with
          | none =>
              have heval : read_header stream true none = .streamFormatError := by
                simp only [read_header]
                rw [if_neg h0, if_neg hm]
                simp
              rw [heval]
              constructor
              · exact ⟨fun _ =>
                  ⟨hsne, Or.inr (Or.inl ⟨hm, rfl, Or.inl rfl⟩)⟩, fun _ => rfl⟩
              · intro rate pre h
                simp at h
          | some v =>
              by_cases hv : v.leZero = true
              · have heval : read_header stream true (some v) =
                    .streamFormatError := by
                  simp only [read_header]
                  rw [if_neg h0, if_neg hm]
                  simp only [if_true, hv]
                rw [heval]
                constructor
                · exact ⟨fun _ =>
                    ⟨hsne, Or.inr (Or.inl ⟨hm, rfl, Or.inr ⟨v, rfl, hv⟩⟩)⟩,
                    fun _ => rfl⟩
                · intro rate pre h
                  simp at h
              · rw [Bool.not_eq_true] at hv
                have heval : read_header stream true (some v) =
                    .ok v (stream.take 6) := by
                  simp only [read_header]
                  rw [if_neg h0, if_neg hm]
                  simp only [hv, Bool.false_eq_true, if_false, if_true]
                rw [heval]
                constructor
                · constructor
                  · intro h
                    simp at h
                  · rintro ⟨-, h | h | h⟩
                    · exact absurd h.1 hm
                    · rcases h.2.2 with h' | ⟨w, hw, hwz⟩
                      · simp at h'
                      · rw [Option.some.injEq] at hw
                        subst hw
                        rw [hwz] at hv
                        simp at hv
                    · simp at h
                · intro rate pre h
                  rw [HdrResult.ok.injEq] at h
                  obtain ⟨h1, h2⟩ := h
                  subst h1
                  subst h2
                  exact ⟨hv, leZero_false_isPos _ hv,
                    Or.inr ⟨hm, rfl, rfl, rfl⟩⟩

/-- Witness for `read_header_spec`: the stream `b"MSIG1 100\n"` yields the
rate 100 with an empty prefix, and 100 is positive. -/
theorem read_header_spec_witness :
    read_header (MAGIC ++ [49, 48, 48, 10]) false none = .ok (.fin 100) [] ∧
    ((PyFloat.fin 100).leZero = false ∧
      ((PyFloat.fin 100) ≠ .nan → (PyFloat.fin 100).isPos = true) ∧
      (((MAGIC ++ [49, 48, 48, 10]).take 6 = MAGIC ∧ ([] : List ℕ) = [] ∧
          pyFloatOfBytes
            (readRateBytes 20 ((MAGIC ++ [49, 48, 48, 10]).drop 6)) =
            some (.fin 100)) ∨
       ((MAGIC ++ [49, 48, 48, 10]).take 6 ≠ MAGIC ∧ false = true ∧
          (none : Option PyFloat) = some (.fin 100) ∧
          ([] : List ℕ) = (MAGIC ++ [49, 48, 48, 10]).take 6))) :=
  ⟨by decide,
    (read_header_spec (MAGIC ++ [49, 48, 48, 10]) false none).2
      (.fin 100) [] (by decide)⟩

end SigStream

namespace Motion

/-- The sample rate the program runs the detector at:
`VibrationDetector(fs=100)` in `main()`.  All the `fs`-derived integer
constants below (`fs * 5 = 500`, `max(1, fs // 10) = 10`,
`max(1, fs // 30) = 3`, `int(fs * 0.05) = 5`, `int(fs * 0.3) = 30`,
`int(fs * 1.0) = 100`, `int(fs * 2.5) = 250`) are evaluated at this
value. -/
def fs : ℕ := 100

/-- One event record appended by `_classify` (the derived display string
`tstr` is presentation-only and omitted; `src` is the deduplicated source
list, in first-occurrence order standing in for Python's set order). -/
structure Event where
  time : ℚ
  sev : String
  sym : String
  lbl : String
  amp : ℚ
  src : List String
  nsrc : ℕ
  bands : List String
deriving DecidableEq

/-- One entry of the per-sample `evts` list (the tuples appended in
`process`); only the leading name is consumed by `_classify`. -/
inductive Detection where
  | staLta (i : Fin 3) (ratio mag : ℚ)
  | cusumPos (v mag : ℚ)
  | cusumNeg (v mag : ℚ)
  | kurtosis (k mag : ℚ)
  | peak (tier : String) (dev mag : ℚ)
deriving DecidableEq

/-- `d[0]` of a detection tuple. -/
def Detection.name : Detection → String
  | .staLta _ _ _ => "STA/LTA"
  | .cusumPos _ _ => "CUSUM"
  | .cusumNeg _ _ => "CUSUM"
  | .kurtosis _ _ => "KURTOSIS"
  | .peak _ _ _ => "PEAK"

/-- The two quantities of the model that are not exact rationals in the
source: `math.sqrt` (applied to the squared norms and the mean square) and
the two π-dependent heartbeat bandpass coefficients
`hr_hp_alpha = fs/(fs + 2π·0.8)` and `hr_lp_alpha = 2π·3/(2π·3 + fs)`.
Every theorem below holds for all values of these parameters. -/
structure Params where
  sq : ℚ → ℚ
  hr_hp_alpha : ℚ
  hr_lp_alpha : ℚ

/-- `deque(maxlen=cap)` append: keep the most recent `cap` entries. -/
def pushCap {α : Type} (cap : ℕ) (l : List α) (x : α) : List α :=
  let l2 := l ++ [x]
  l2.drop (l2.length - cap)

/-- `self.sta_n = [3, 15, 50]`. -/
def sta_n : Fin 3 → ℚ := ![3, 15, 50]

/-- `self.lta_n = [100, 500, 2000]`. -/
def lta_n : Fin 3 → ℚ := ![100, 500, 2000]

/-- `self.sta_lta_thresh_on = [3.0, 2.5, 2.0]`. -/
def sta_lta_thresh_on : Fin 3 → ℚ := ![3, 2.5, 2]

/-- `self.sta_lta_thresh_off = [1.5, 1.3, 1.2]`. -/
def sta_lta_thresh_off : Fin 3 → ℚ := ![1.5, 1.3, 1.2]

/-- `self.band_labels`, already `.strip()`-ed as `_classify` uses them. -/
def band_labels : Fin 5 → String := !["50Hz", "25Hz", "12Hz", "6Hz", "3Hz"]

/-- The mutable state of `VibrationDetector` (fields whose Python names
begin with an underscore are modelled without it: `sta_dec`, `kurt_dec`,
`rms_dec`, `rms_window`, `last_evt_t`; the `pywt` handles and the spark
ring are display-only and the DWT band energies enter only through
`_classify`). -/
structure Det where
  sample_count : ℕ
  hp_prev_raw : ℚ × ℚ × ℚ
  hp_prev_out : ℚ × ℚ × ℚ
  hp_ready : Bool
  waveform : List ℚ
  waveform_xyz : List (ℚ × ℚ × ℚ)
  latest_raw : ℚ × ℚ × ℚ
  latest_mag : ℚ
  sta : Fin 3 → ℚ
  lta : Fin 3 → ℚ
  sta_lta_active : Fin 3 → Bool
  sta_lta_ring : Fin 3 → List ℚ
  sta_lta_latest : Fin 3 → ℚ
  sta_dec : ℕ
  dwt_buffer : List ℚ
  band_energy : Fin 5 → List ℚ
  cusum_pos : ℚ
  cusum_neg : ℚ
  cusum_mu : ℚ
  cusum_val : ℚ
  kurt_buf : List ℚ
  kurtosis : ℚ
  kurt_dec : ℕ
  peak_buf : List ℚ
  crest : ℚ
  rms : ℚ
  peak : ℚ
  mad_sigma : ℚ
  events : List Event
  event_ts : List ℚ
  rms_trend : List ℚ
  rms_window : List ℚ
  rms_dec : ℕ
  hr_hp_prev_in : ℚ
  hr_hp_prev_out : ℚ
  hr_lp_prev : ℚ
  hr_buf : List ℚ
  hr_bpm : Option ℚ
  hr_confidence : ℚ
  period : Option ℚ
  period_std : Option ℚ
  period_cv : Option ℚ
  period_freq : Option ℚ
  acorr_ring : List ℚ
  last_evt_t : ℚ

/-- `VibrationDetector.__init__(fs=100)`. -/
def initDet : Det where
  sample_count := 0
  hp_prev_raw := (0, 0, 0)
  hp_prev_out := (0, 0, 0)
  hp_ready := false
  waveform := []
  waveform_xyz := []
  latest_raw := (0, 0, 0)
  latest_mag := 0
  sta := fun _ => 0
  lta := fun _ => 1e-10
  sta_lta_active := fun _ => false
  sta_lta_ring := fun _ => []
  sta_lta_latest := fun _ => 1
  sta_dec := 0
  dwt_buffer := []
  band_energy := fun _ => []
  cusum_pos := 0
  cusum_neg := 0
  cusum_mu := 0
  cusum_val := 0
  kurt_buf := []
  kurtosis := 3
  kurt_dec := 0
  peak_buf := []
  crest := 1
  rms := 0
  peak := 0
  mad_sigma := 0
  events := []
  event_ts := []
  rms_trend := []
  rms_window := []
  rms_dec := 0
  hr_hp_prev_in := 0
  hr_hp_prev_out := 0
  hr_lp_prev := 0
  hr_buf := []
  hr_bpm := none
  hr_confidence := 0
  period := none
  period_std := none
  period_cv := none
  period_freq := none
  acorr_ring := []
  last_evt_t := 0

/-- Result of one STA/LTA update at one timescale (lines 183–192). -/
structure StaOut where
  sta : ℚ
  lta : ℚ
  ratio : ℚ
  active : Bool
  fired : Bool
deriving DecidableEq

instance : Inhabited StaOut := ⟨⟨0, 0, 0, false, false⟩⟩

/-- The body of the `for i in range(3)` STA/LTA loop for one timescale:
exponential short/long averages of the energy `e`, ratio with the `1e-30`
floor, `on`-threshold crossing from inactive fires and activates, falling
below the `off` threshold deactivates. -/
def staLtaStep (i : Fin 3) (sta lta : ℚ) (active : Bool) (e : ℚ) : StaOut :=
  let sta2 := sta + (e - sta) / sta_n i
  let lta2 := lta + (e - lta) / lta_n i
  let ratio := sta2 / (lta2 + 1e-30)
  if ratio > sta_lta_thresh_on i ∧ active = false then
    ⟨sta2, lta2, ratio, true, true⟩
  else if ratio < sta_lta_thresh_off i then
    ⟨sta2, lta2, ratio, false, false⟩
  else
    ⟨sta2, lta2, ratio, active, false⟩

/-- The STA/LTA block of `process` (lines 180–192): run the three
timescales in order on the energy `e = mag²`, collecting the fired
detections. -/
def staStage (d : Det) (mag : ℚ) : Det × List Detection :=
  let e := mag * mag
  (List.finRange 3).foldl
    (fun (p : Det × List Detection) i =>
      let o := staLtaStep i (p.1.sta i) (p.1.lta i) (p.1.sta_lta_active i) e
      ({ p.1 with
          sta := Function.update p.1.sta i o.sta
          lta := Function.update p.1.lta i o.lta
          sta_lta_latest := Function.update p.1.sta_lta_latest i o.ratio
          sta_lta_active := Function.update p.1.sta_lta_active i o.active },
        p.2 ++ if o.fired then [Detection.staLta i o.ratio mag] else []))
    (d, [])

/-- Lines 194–198: every `max(1, fs // 30) = 3` samples push the latest
ratios into the spark rings. -/
def staRingStage (d : Det) : Det :=
  let d2 := { d with sta_dec := d.sta_dec + 1 }
  if d2.sta_dec ≥ 3 then
    { d2 with
        sta_dec := 0
        sta_lta_ring := fun i => pushCap 30 (d2.sta_lta_ring i) (d2.sta_lta_latest i) }
  else d2

/-- The CUSUM block (lines 200–210): adapt the mean, accumulate both
sides, fire and reset an accumulator that exceeds `cusum_h = 0.01`
(`cusum_k = 0.0005`). -/
def cusumStage (d : Det) (mag : ℚ) : Det × List Detection :=
  let mu2 := d.cusum_mu + 0.0001 * (mag - d.cusum_mu)
  let pos1 := max 0 (d.cusum_pos + mag - mu2 - 0.0005)
  let neg1 := max 0 (d.cusum_neg - mag + mu2 - 0.0005)
  let val := max pos1 neg1
  let posEvts := if pos1 > 0.01 then [Detection.cusumPos pos1 mag] else []
  let pos2 := if pos1 > 0.01 then 0 else pos1
  let negEvts := if neg1 > 0.01 then [Detection.cusumNeg neg1 mag] else []
  let neg2 := if neg1 > 0.01 then 0 else neg1
  let d2 := { d with
      cusum_mu := mu2
      cusum_pos := pos2
      cusum_neg := neg2
      cusum_val := val }
  (d2, posEvts ++ negEvts)

/-- The kurtosis block (lines 212–225): every 10 samples once the 1 s
window holds at least 50 samples, the 4th/2nd central-moment ratio; above
6 fires. -/
def kurtStage (d : Det) (mag : ℚ) : Det × List Detection :=
  let d2 := { d with
      kurt_buf := pushCap 100 d.kurt_buf mag
      kurt_dec := d.kurt_dec + 1 }
  if d2.kurt_dec ≥ 10 ∧ d2.kurt_buf.length ≥ 50 then
    let buf := d2.kurt_buf
    let n : ℚ := buf.length
    let mu := buf.sum / n
    let m2 := (buf.map fun x => (x - mu) * (x - mu)).sum / n
    let m4 := (buf.map fun x => (x - mu) * (x - mu) * ((x - mu) * (x - mu))).sum / n
    let k := m4 / (m2 * m2 + 1e-30)
    ({ d2 with kurt_dec := 0, kurtosis := k },
      if k > 6 then [Detection.kurtosis k mag] else [])
  else (d2, [])

/-- The peak / MAD block (lines 227–247): every 10th sample once the 2 s
window holds at least 50 samples, median and MAD of the window, robust
sigma `1.4826 * mad + 1e-30`, the normalized deviation of the current
sample bucketed into four tiers (highest exceeded tier only). -/
def peakStage (P : Params) (d : Det) (mag : ℚ) : Det × List Detection :=
  let d2 := { d with peak_buf := pushCap 200 d.peak_buf mag }
  if d2.peak_buf.length ≥ 50 ∧ d2.sample_count % 10 = 0 then
    let srt := d2.peak_buf.mergeSort (fun a b => a ≤ b)
    let n : ℕ := srt.length
    let median := srt.getD (n / 2) 0
    let mad := ((srt.map fun x => |x - median|).mergeSort (fun a b => a ≤ b)).getD
      (n / 2) 0
    let sigma := 1.4826 * mad + 1e-30
    let rms := P.sq ((d2.peak_buf.map fun x => x * x).sum / (n : ℚ))
    let peak := (d2.peak_buf.map fun x => |x|).foldl max 0
    let crest := peak / (rms + 1e-30)
    let dev := |mag - median| / sigma
    ({ d2 with mad_sigma := sigma, rms := rms, peak := peak, crest := crest },
      if dev > 8 then [Detection.peak "majeur" dev mag]
      else if dev > 5 then [Detection.peak "fort" dev mag]
      else if dev > 3.5 then [Detection.peak "moyen" dev mag]
      else if dev > 2 then [Detection.peak "micro" dev mag]
      else [])
  else (d2, [])

/-- The heartbeat bandpass block (lines 162–168): cascaded first-order
high-pass and low-pass stages feeding the 10 s heartbeat ring. -/
def hrStage (P : Params) (d : Det) (mag : ℚ) : Det :=
  let hp_out := P.hr_hp_alpha * (d.hr_hp_prev_out + mag - d.hr_hp_prev_in)
  let lp_out := P.hr_lp_alpha * hp_out + (1 - P.hr_lp_alpha) * d.hr_lp_prev
  { d with
      hr_hp_prev_in := mag
      hr_hp_prev_out := hp_out
      hr_lp_prev := lp_out
      hr_buf := pushCap (fs * 10) d.hr_buf lp_out }

/-- The RMS-trend block (lines 170–176): every `max(1, fs // 10) = 10`
samples push the window RMS. -/
def rmsStage (P : Params) (d : Det) (mag : ℚ) : Det :=
  let d2 := { d with
      rms_window := pushCap fs d.rms_window mag
      rms_dec := d.rms_dec + 1 }
  if d2.rms_dec ≥ 10 then
    let d3 := { d2 with rms_dec := 0 }
    if d3.rms_window ≠ [] then
      { d3 with
          rms_trend := pushCap 100 d3.rms_trend
            (P.sq ((d3.rms_window.map fun x => x * x).sum /
              (d3.rms_window.length : ℚ))) }
    else d3
  else d2

/-- The severity chain of `_classify` (lines 353–364): first match wins. -/
def classifySeverity (sources : List String) (amp : ℚ) :
    String × String × String :=
  let ns := sources.length
  if ns ≥ 4 ∧ amp > 0.05 then ("CHOC_MAJEUR", "★", "MAJOR")
  else if ns ≥ 3 ∧ amp > 0.02 then ("CHOC_MOYEN", "▲", "shock")
  else if "PEAK" ∈ sources ∧ amp > 0.005 then ("MICRO_CHOC", "△", "micro-choc")
  else if ("STA/LTA" ∈ sources ∨ "CUSUM" ∈ sources) ∧ amp > 0.003 then
    ("VIBRATION", "●", "vibration")
  else if amp > 0.001 then ("VIB_LEGERE", "○", "light-vib")
  else ("MICRO_VIB", "·", "micro-vib")

/-- `_classify(detections, t, amp)` (named without the leading
underscore): distinct sources, severity by the fixed chain, the recent
non-negligible spectral bands, and the event appended to the bounded
log. -/
def classify (d : Det) (detections : List Detection) (t amp : ℚ) : Det :=
  let sources := (detections.map Detection.name).dedup
  let ns := sources.length
  let sev := classifySeverity sources amp
  let bands := (List.finRange 5).filterMap fun j =>
    if (d.band_energy j) ≠ [] then
      let recent := (d.band_energy j).drop ((d.band_energy j).length - 3)
      if recent.sum / (recent.length : ℚ) > 1e-10 then some (band_labels j)
      else none
    else none
  { d with
      events := pushCap 500 d.events
        ⟨t, sev.1, sev.2.1, sev.2.2, amp, sources, ns, bands⟩ }

/-- Lines 150–252 of `process` (the non-first-sample path), applied to the
state `d0` that has already absorbed the sample count and latest-sample
bookkeeping: the gravity-removal filter, the heartbeat bandpass, the RMS
trend, the four trigger blocks in order, and the rate-limited
classification. -/
def processMain (P : Params) (d0 : Det) (ax ay az t_now : ℚ) : Det :=
  let a : ℚ := 0.95
  let hx := a * (d0.hp_prev_out.1 + ax - d0.hp_prev_raw.1)
  let hy := a * (d0.hp_prev_out.2.1 + ay - d0.hp_prev_raw.2.1)
  let hz := a * (d0.hp_prev_out.2.2 + az - d0.hp_prev_raw.2.2)
  let mag := P.sq (hx * hx + hy * hy + hz * hz)
  let d1 := { d0 with
      hp_prev_raw := (ax, ay, az)
      hp_prev_out := (hx, hy, hz)
      waveform := pushCap (fs * 5) d0.waveform mag
      waveform_xyz := pushCap (fs * 5) d0.waveform_xyz (hx, hy, hz)
      dwt_buffer := pushCap 512 d0.dwt_buffer mag }
  let d2 := hrStage P d1 mag
  let d3 := rmsStage P d2 mag
  let s4 := staStage d3 mag
  let d5 := staRingStage s4.1
  let s6 := cusumStage d5 mag
  let s7 := kurtStage s6.1 mag
  let s8 := peakStage P s7.1 mag
  let evts := s4.2 ++ s6.2 ++ s7.2 ++ s8.2
  if evts ≠ [] ∧ t_now - s8.1.last_evt_t > 0.01 then
    let d9 := { s8.1 with
        last_evt_t := t_now
        event_ts := pushCap 200 s8.1.event_ts t_now }
    classify d9 evts t_now mag
  else s8.1

/-- `VibrationDetector.process(ax, ay, az, t_now)` (lines 137–252), with
`math.sqrt` as the abstract `P.sq`.  The first sample initializes the
high-pass memory and returns; later samples run `processMain`. -/
def process (P : Params) (d : Det) (ax ay az t_now : ℚ) : Det :=
  let d0 := { d with
      sample_count := d.sample_count + 1
      latest_raw := (ax, ay, az)
      latest_mag := P.sq (ax * ax + ay * ay + az * az) }
  if d0.hp_ready = false then
    { d0 with
        hp_prev_raw := (ax, ay, az)
        hp_prev_out := (0, 0, 0)
        hp_ready := true
        waveform := pushCap (fs * 5) d0.waveform 0
        dwt_buffer := pushCap 512 d0.dwt_buffer 0 }
  else
    processMain P d0 ax ay az t_now

/-- Run `process` over a list of `(ax, ay, az, t_now)` samples. -/
def runProcess (P : Params) (d : Det) (inputs : List (ℚ × ℚ × ℚ × ℚ)) : Det :=
  inputs.foldl (fun a x => process P a x.1 x.2.1 x.2.2.1 x.2.2.2) d

/-- The best-correlation loop shared by the autocorrelation detectors:
`for lag in lags: r = f lag; if r > best_r: best_r, best_lag = r, lag`. -/
def acorrFold (f : ℕ → ℚ) (lags : List ℕ) (init : ℚ × ℕ) : ℚ × ℕ :=
  lags.foldl (fun p lag => if f lag > p.1 then (f lag, lag) else p) init

/-- `sum(centered[i] * centered[i + lag] for i in range(n - lag))`. -/
def lagProdSum (centered : List ℚ) (lag : ℕ) : ℚ :=
  (List.zipWith (fun a b => a * b) centered (centered.drop lag)).sum

/-- `VibrationDetector.detect_periodicity` (lines 275–311), at `fs = 100`:
needs 2 s of waveform, takes the last 5 s, centers it, guards the variance
against `1e-20`, scans lags `max(5, int(fs*0.05)) = 5` up to
`min(n // 2, int(fs*2.5) = 250)` (exclusive).  `best_i = max(range, key)`
returns the first maximizer, so the fold below seeds the accumulator with
the first correlation.  The best normalized correlation above `0.1` yields
the period fields; otherwise they are cleared. -/
def detect_periodicity (d : Det) : Det :=
  if d.waveform.length < 200 then { d with period := none, acorr_ring := [] }
  else
    let buf := d.waveform.drop (d.waveform.length - 500)
    let n := buf.length
    let mean := buf.sum / (n : ℚ)
    let centered := buf.map fun x => x - mean
    let var := (centered.map fun x => x * x).sum
    if var < 1e-20 then { d with period := none, acorr_ring := [] }
    else
      let min_lag := 5
      let max_lag := min (n / 2) 250
      let lags := (List.range (max_lag - min_lag)).map fun t => min_lag + t
      let acorr := lags.map fun lag => lagProdSum centered lag / var
      let d2 := { d with acorr_ring := acorr }
      if acorr = [] then { d2 with period := none }
      else
        let best := acorrFold (fun lag => lagProdSum centered lag / var) lags
          (acorr.headD 0, min_lag)
        let best_val := best.1
        let best_lag := best.2
        if best_val > 0.1 then
          { d2 with
              period := some ((best_lag : ℚ) / 100)
              period_freq := some (100 / (best_lag : ℚ))
              period_cv := some (max 0 (1 - best_val))
              period_std := some ((best_lag : ℚ) / 100 * max 0 (1 - best_val)) }
        else
          { d2 with
              period := none
              period_freq := none
              period_cv := none
              period_std := none }

/-- `VibrationDetector.detect_heartbeat` (lines 313–347), at `fs = 100`:
needs 5 s of the heartbeat ring, takes the last 10 s, centers it, guards
the variance against `1e-20`, scans lags `int(fs*0.3) = 30` to
`min(int(fs*1.0), n//2)` (exclusive), and reports
`60 / (best_lag / fs)` BPM with confidence `min(1, best_r)` when the best
correlation exceeds `0.15`, else no heartbeat. -/
def detect_heartbeat (d : Det) : Det :=
  if d.hr_buf.length < 500 then { d with hr_bpm := none, hr_confidence := 0 }
  else
    let buf := d.hr_buf.drop (d.hr_buf.length - 1000)
    let n := buf.length
    let mean := buf.sum / (n : ℚ)
    let centered := buf.map fun x => x - mean
    let var := (centered.map fun x => x * x).sum
    if var < 1e-20 then { d with hr_bpm := none, hr_confidence := 0 }
    else
      let lag_lo := 30
      let lag_hi := min 100 (n / 2)
      if lag_lo ≥ lag_hi then { d with hr_bpm := none, hr_confidence := 0 }
      else
        let lags := (List.range (lag_hi - lag_lo)).map fun t => lag_lo + t
        let res := acorrFold (fun lag => lagProdSum centered lag / var) lags
          (-1, lag_lo)
        if res.1 > 0.15 then
          { d with
              hr_bpm := some (60 / ((res.2 : ℚ) / 100))
              hr_confidence := min 1 res.1 }
        else { d with hr_bpm := none, hr_confidence := 0 }

/-- The heartbeat search as claim C5 words it: identical to
`detect_heartbeat` except that the scanned lags cover the range
corresponding to 50–200 BPM, i.e. `fs * 60/200 = 30` up to
`fs * 60/50 = 120` (capped by `n // 2`) — whereas the code stops at
`int(fs * 1.0) = 100`, i.e. 60 BPM. -/
def detect_heartbeat_claim50 (d : Det) : Det :=
  if d.hr_buf.length < 500 then { d with hr_bpm := none, hr_confidence := 0 }
  else
    let buf := d.hr_buf.drop (d.hr_buf.length - 1000)
    let n := buf.length
    let mean := buf.sum / (n : ℚ)
    let centered := buf.map fun x => x - mean
    let var := (centered.map fun x => x * x).sum
    if var < 1e-20 then { d with hr_bpm := none, hr_confidence := 0 }
    else
      let lag_lo := 30
      let lag_hi := min 121 (n / 2)
      if lag_lo ≥ lag_hi then { d with hr_bpm := none, hr_confidence := 0 }
      else
        let lags := (List.range (lag_hi - lag_lo)).map fun t => lag_lo + t
        let res := acorrFold (fun lag => lagProdSum centered lag / var) lags
          (-1, lag_lo)
        if res.1 > 0.15 then
          { d with
              hr_bpm := some (60 / ((res.2 : ℚ) / 100))
              hr_confidence := min 1 res.1 }
        else { d with hr_bpm := none, hr_confidence := 0 }

def pulseBuf : List ℚ :=
  (List.range 500).map fun i => if i % 110 = 0 then 100 else 0
/-- The `hp_ready = False` branch of `process` (lines 142–148), as a
standalone equation shared by the theorems below. -/
theorem process_not_ready (P : Params) (d : Det) (ax ay az t_now : ℚ)
    (h : d.hp_ready = false) :
    process P d ax ay az t_now =
      { d with
          sample_count := d.sample_count + 1
          latest_raw := (ax, ay, az)
          latest_mag := P.sq (ax * ax + ay * ay + az * az)
          hp_prev_raw := (ax, ay, az)
          hp_prev_out := (0, 0, 0)
          hp_ready := true
          waveform := pushCap (fs * 5) d.waveform 0
          dwt_buffer := pushCap 512 d.dwt_buffer 0 } := by
  obtain ⟨x1, x2, x3, hready, x5, x6, x7, x8, x9, x10, x11, x12, x13, x14, x15,
    x16, x17, x18, x19, x20, x21, x22, x23, x24, x25, x26, x27, x28, x29, x30,
    x31, x32, x33, x34, x35, x36, x37, x38, x39, x40, x41, x42, x43, x44,
    x45⟩ := d
  replace h : hready = false := h
  subst h
  rfl

/-- C9.  The very first call of `process` (the `hp_ready = False` branch)
only counts the sample, records it as the latest raw sample/magnitude,
initializes the high-pass filter memory from it, appends a zero to the
waveform and DWT buffers, and returns: every detector state (STA/LTA,
CUSUM, kurtosis, peak, heartbeat, RMS), the event log and the event
timestamps are untouched, so no detection is emitted and no event is
classified on sample 0. -/
theorem process_first_sample (P : Params) (d : Det) (ax ay az t_now : ℚ)
    (h : d.hp_ready = false) :
    process P d ax ay az t_now =
      { d with
          sample_count := d.sample_count + 1
          latest_raw := (ax, ay, az)
          latest_mag := P.sq (ax * ax + ay * ay + az * az)
          hp_prev_raw := (ax, ay, az)
          hp_prev_out := (0, 0, 0)
          hp_ready := true
          waveform := pushCap (fs * 5) d.waveform 0
          dwt_buffer := pushCap 512 d.dwt_buffer 0 } :=
  process_not_ready P d ax ay az t_now h

/-- Witness for `process_first_sample`: the freshly constructed detector
at its first sample. -/
theorem process_first_sample_witness :
    process ⟨fun _ => 0, 0, 0⟩ initDet 1 2 3 4 =
      { initDet with
          sample_count := initDet.sample_count + 1
          latest_raw := (1, 2, 3)
          latest_mag := (fun (_ : ℚ) => (0 : ℚ)) (1 * 1 + 2 * 2 + 3 * 3)
          hp_prev_raw := (1, 2, 3)
          hp_prev_out := (0, 0, 0)
          hp_ready := true
          waveform := pushCap (fs * 5) initDet.waveform 0
          dwt_buffer := pushCap 512 initDet.dwt_buffer 0 } :=
  process_first_sample ⟨fun _ => 0, 0, 0⟩ initDet 1 2 3 4 rfl

/-- C4.  One CUSUM update: the mean adapts slowly
(`mu' = mu + 0.0001 (mag - mu)`), the accumulators follow
`pos' = max 0 (pos + (mag - mu') - k)` and
`neg' = max 0 (neg - (mag - mu') - k)` with `k = 0.0005`; a detection is
emitted for a side exactly when its updated accumulator exceeds
`h = 0.01`, and that accumulator is then reset to exactly zero — so after
every step both stored accumulators lie in `[0, h]`. -/
theorem cusum_step_spec (d : Det) (mag : ℚ) :
    (cusumStage d mag).1.cusum_mu = d.cusum_mu + 0.0001 * (mag - d.cusum_mu) ∧
    (cusumStage d mag).1.cusum_pos =
      (if max 0 (d.cusum_pos + (mag - (d.cusum_mu + 0.0001 * (mag - d.cusum_mu)))
          - 0.0005) > 0.01 then 0
        else max 0 (d.cusum_pos + (mag - (d.cusum_mu + 0.0001 * (mag - d.cusum_mu)))
          - 0.0005)) ∧
    (cusumStage d mag).1.cusum_neg =
      (if max 0 (d.cusum_neg - (mag - (d.cusum_mu + 0.0001 * (mag - d.cusum_mu)))
          - 0.0005) > 0.01 then 0
        else max 0 (d.cusum_neg - (mag - (d.cusum_mu + 0.0001 * (mag - d.cusum_mu)))
          - 0.0005)) ∧
    (cusumStage d mag).2 =
      ((if max 0 (d.cusum_pos + (mag - (d.cusum_mu + 0.0001 * (mag - d.cusum_mu)))
          - 0.0005) > 0.01 then
          [Detection.cusumPos (max 0 (d.cusum_pos +
            (mag - (d.cusum_mu + 0.0001 * (mag - d.cusum_mu))) - 0.0005)) mag]
        else []) ++
       (if max 0 (d.cusum_neg - (mag - (d.cusum_mu + 0.0001 * (mag - d.cusum_mu)))
          - 0.0005) > 0.01 then
          [Detection.cusumNeg (max 0 (d.cusum_neg -
            (mag - (d.cusum_mu + 0.0001 * (mag - d.cusum_mu))) - 0.0005)) mag]
        else [])) ∧
    (0 ≤ (cusumStage d mag).1.cusum_pos ∧ (cusumStage d mag).1.cusum_pos ≤ 0.01) ∧
    (0 ≤ (cusumStage d mag).1.cusum_neg ∧ (cusumStage d mag).1.cusum_neg ≤ 0.01) := by
  have hgrp_pos : d.cusum_pos + mag - (d.cusum_mu + 0.0001 * (mag - d.cusum_mu))
      - 0.0005 =
      d.cusum_pos + (mag - (d.cusum_mu + 0.0001 * (mag - d.cusum_mu))) - 0.0005 := by
    ring
  have hgrp_neg : d.cusum_neg - mag + (d.cusum_mu + 0.0001 * (mag - d.cusum_mu))
      - 0.0005 =
      d.cusum_neg - (mag - (d.cusum_mu + 0.0001 * (mag - d.cusum_mu))) - 0.0005 := by
    ring
  refine ⟨?_, ?_, ?_, ?_, ?_, ?_⟩
  · simp only [cusumStage]
  · simp only [cusumStage, hgrp_pos]
  · simp only [cusumStage, hgrp_neg]
  · simp only [cusumStage, hgrp_pos, hgrp_neg]
  · simp only [cusumStage]
    constructor
    · split
      · exact le_refl 0
      · exact le_max_left 0 _
    · split
      · norm_num
      · next hng => exact le_of_not_lt (by simpa using hng)
  · simp only [cusumStage]
    constructor
    · split
      · exact le_refl 0
      · exact le_max_left 0 _
    · split
      · norm_num
      · next hng => exact le_of_not_lt (by simpa using hng)

/-- The per-timescale STA/LTA trace: states evolve through `staLtaStep`,
and the `j`-th entry records the `j`-th step's sta/lta/ratio/active/fired
values. -/
def staTrace (i : Fin 3) : (ℚ × ℚ × Bool) → List ℚ → List StaOut
  | _, [] => []
  | s, e :: es =>
      let o := staLtaStep i s.1 s.2.1 s.2.2 e
      o :: staTrace i (o.sta, o.lta, o.active) es

theorem staLtaStep_fired_iff (i : Fin 3) (sta lta : ℚ) (active : Bool) (e : ℚ) :
    (staLtaStep i sta lta active e).fired = true ↔
      ((staLtaStep i sta lta active e).ratio > sta_lta_thresh_on i ∧
        active = false) := by
  simp only [staLtaStep]
  split_ifs with h1 h2 <;> simp_all

theorem staLtaStep_active_of_fired (i : Fin 3) (sta lta : ℚ) (active : Bool)
    (e : ℚ) (h : (staLtaStep i sta lta active e).fired = true) :
    (staLtaStep i sta lta active e).active = true := by
  simp only [staLtaStep] at h ⊢
  split_ifs with h1 h2 <;> simp_all

theorem staLtaStep_stays_active (i : Fin 3) (sta lta : ℚ) (active : Bool)
    (e : ℚ) (ha : active = true)
    (hoff : ¬ (staLtaStep i sta lta active e).ratio < sta_lta_thresh_off i) :
    (staLtaStep i sta lta active e).active = true := by
  simp only [staLtaStep] at hoff ⊢
  split_ifs with h1 h2 <;> simp_all

/-- A step that fires has its ratio above the `on` threshold. -/
theorem staTrace_fired_ratio (i : Fin 3) (es : List ℚ) :
    ∀ (s : ℚ × ℚ × Bool) (j : ℕ),
      ((staTrace i s es).getD j default).fired = true →
      ((staTrace i s es).getD j default).ratio > sta_lta_thresh_on i := by
  induction es with
  | nil =>
      intro s j h
      simp [staTrace, default] at h
  | cons e es ih =>
      intro s j h
      cases j with
      | zero =>
          simp only [staTrace, List.getD_cons_zero] at h ⊢
          exact ((staLtaStep_fired_iff i s.1 s.2.1 s.2.2 e).mp h).1
      | succ j =>
          simp only [staTrace, List.getD_cons_succ] at h ⊢
          exact ih _ j h

/-- While the detector is active and the ratio has not dropped below the
`off` threshold at any earlier step, no step fires. -/
theorem staTrace_no_refire (i : Fin 3) (es : List ℚ) :
    ∀ (s : ℚ × ℚ × Bool), s.2.2 = true → ∀ (j : ℕ),
      (∀ k < j, ¬ ((staTrace i s es).getD k default).ratio <
        sta_lta_thresh_off i) →
      ((staTrace i s es).getD j default).fired = false := by
  induction es with
  | nil =>
      intro s _ j _
      simp [staTrace, default]
  | cons e es ih =>
      intro s hs j hk
      cases j with
      | zero =>
          simp only [staTrace, List.getD_cons_zero]
          rw [← Bool.not_eq_true]
          intro hf
          exact absurd ((staLtaStep_fired_iff i s.1 s.2.1 s.2.2 e).mp hf).2
            (by simp [hs])
      | succ j =>
          simp only [staTrace, List.getD_cons_succ]
          apply ih
          · show (staLtaStep i s.1 s.2.1 s.2.2 e).active = true
            apply staLtaStep_stays_active i s.1 s.2.1 s.2.2 e hs
            have := hk 0 (Nat.succ_pos j)
            simpa [staTrace, List.getD_cons_zero] using this
          · intro k hkj
            have := hk (k + 1) (by omega)
            simpa [staTrace, List.getD_cons_succ] using this

/-- C2.  STA/LTA trigger and hysteresis, for each of the three timescales
`i` and any state and energy sequence.  A step fires exactly when the
updated ratio crosses the `on` threshold while the detector is inactive
(an inactive-to-crossing step emits exactly one detection for that
timescale, since `staStage` appends one entry per fired timescale), a
firing step sets the active flag, and once active no step fires again
until the ratio has first fallen below the (lower) `off` threshold at some
earlier step and the firing step's ratio is again above the `on`
threshold. -/
theorem staLta_trigger_hysteresis (i : Fin 3) (sta lta : ℚ) (active : Bool)
    (es : List ℚ) :
    (∀ e : ℚ, (staLtaStep i sta lta active e).fired = true ↔
        ((staLtaStep i sta lta active e).ratio > sta_lta_thresh_on i ∧
          active = false)) ∧
    (∀ e : ℚ, (staLtaStep i sta lta active e).fired = true →
        (staLtaStep i sta lta active e).active = true) ∧
    (active = true → ∀ j : ℕ,
      ((staTrace i (sta, lta, active) es).getD j default).fired = false ∨
      ((∃ k < j, ((staTrace i (sta, lta, active) es).getD k default).ratio <
          sta_lta_thresh_off i) ∧
        ((staTrace i (sta, lta, active) es).getD j default).ratio >
          sta_lta_thresh_on i)) := by
  refine ⟨fun e => staLtaStep_fired_iff i sta lta active e,
    fun e => staLtaStep_active_of_fired i sta lta active e, ?_⟩
  intro ha j
  by_cases hf : ((staTrace i (sta, lta, active) es).getD j default).fired = false
  · exact Or.inl hf
  · rw [Bool.not_eq_false] at hf
    refine Or.inr ⟨?_, staTrace_fired_ratio i es _ j hf⟩
    by_contra hno
    push_neg at hno
    have := staTrace_no_refire i es (sta, lta, active) (by simpa using ha) j
      (fun k hk => not_lt.mpr (hno k hk))
    rw [this] at hf
    exact Bool.false_ne_true hf

theorem getLastD_pushCap {α : Type} (cap : ℕ) (l : List α) (x d : α)
    (hc : 1 ≤ cap) : (pushCap cap l x).getLastD d = x := by
  unfold pushCap
  have hk : (l ++ [x]).length - cap ≤ l.length := by
    simp only [List.length_append, List.length_singleton]
    omega
  rw [List.drop_append_of_le_length hk]
  simp

/-- C3.  `_classify` assigns severity by fixed first-match precedence over
the set of distinct detector names and the magnitude: at least 4 distinct
sources with `amp > 0.05` is a major shock; otherwise at least 3 sources
with `amp > 0.02` is a shock; otherwise `PEAK` among the sources with
`amp > 0.005` is a micro-shock; otherwise `STA/LTA` or `CUSUM` among the
sources with `amp > 0.003` is a vibration; otherwise `amp > 0.001` is a
light vibration; otherwise a micro vibration.  The last conjunct ties the
chain to `_classify` itself: the event it appends carries exactly this
severity. -/
theorem classify_severity_precedence (srcs : List String) (amp : ℚ)
    (hdistinct : srcs.Nodup) :
    (srcs.length ≥ 4 ∧ amp > 0.05 →
      classifySeverity srcs amp = ("CHOC_MAJEUR", "★", "MAJOR")) ∧
    (¬ (srcs.length ≥ 4 ∧ amp > 0.05) →
      srcs.length ≥ 3 ∧ amp > 0.02 →
      classifySeverity srcs amp = ("CHOC_MOYEN", "▲", "shock")) ∧
    (¬ (srcs.length ≥ 4 ∧ amp > 0.05) →
      ¬ (srcs.length ≥ 3 ∧ amp > 0.02) →
      "PEAK" ∈ srcs ∧ amp > 0.005 →
      classifySeverity srcs amp = ("MICRO_CHOC", "△", "micro-choc")) ∧
    (¬ (srcs.length ≥ 4 ∧ amp > 0.05) →
      ¬ (srcs.length ≥ 3 ∧ amp > 0.02) →
      ¬ ("PEAK" ∈ srcs ∧ amp > 0.005) →
      ("STA/LTA" ∈ srcs ∨ "CUSUM" ∈ srcs) ∧ amp > 0.003 →
      classifySeverity srcs amp = ("VIBRATION", "●", "vibration")) ∧
    (¬ (srcs.length ≥ 4 ∧ amp > 0.05) →
      ¬ (srcs.length ≥ 3 ∧ amp > 0.02) →
      ¬ ("PEAK" ∈ srcs ∧ amp > 0.005) →
      ¬ (("STA/LTA" ∈ srcs ∨ "CUSUM" ∈ srcs) ∧ amp > 0.003) →
      amp > 0.001 →
      classifySeverity srcs amp = ("VIB_LEGERE", "○", "light-vib")) ∧
    (¬ (srcs.length ≥ 4 ∧ amp > 0.05) →
      ¬ (srcs.length ≥ 3 ∧ amp > 0.02) →
      ¬ ("PEAK" ∈ srcs ∧ amp > 0.005) →
      ¬ (("STA/LTA" ∈ srcs ∨ "CUSUM" ∈ srcs) ∧ amp > 0.003) →
      ¬ amp > 0.001 →
      classifySeverity srcs amp = ("MICRO_VIB", "·", "micro-vib")) ∧
    (∀ (d : Det) (dets : List Detection) (t : ℚ),
      (dets.map Detection.name).dedup = srcs →
      ((classify d dets t amp).events.getLastD
          ⟨0, "", "", "", 0, [], 0, []⟩).sev = (classifySeverity srcs amp).1) := by
  refine ⟨?_, ?_, ?_, ?_, ?_, ?_, ?_⟩
  · intro h1
    simp only [classifySeverity]
    rw [if_pos h1]
  · intro h1 h2
    simp only [classifySeverity]
    rw [if_neg h1, if_pos h2]
  · intro h1 h2 h3
    simp only [classifySeverity]
    rw [if_neg h1, if_neg h2, if_pos h3]
  · intro h1 h2 h3 h4
    simp only [classifySeverity]
    rw [if_neg h1, if_neg h2, if_neg h3, if_pos h4]
  · intro h1 h2 h3 h4 h5
    simp only [classifySeverity]
    rw [if_neg h1, if_neg h2, if_neg h3, if_neg h4, if_pos h5]
  · intro h1 h2 h3 h4 h5
    simp only [classifySeverity]
    rw [if_neg h1, if_neg h2, if_neg h3, if_neg h4, if_neg h5]
  · intro d dets t hsrc
    simp only [classify, hsrc]
    rw [getLastD_pushCap 500 _ _ _ (by norm_num)]

/-- Witness for `classify_severity_precedence`: four distinct sources at
magnitude 1 yield a major shock. -/
theorem classify_severity_precedence_witness :
    classifySeverity ["PEAK", "STA/LTA", "CUSUM", "KURTOSIS"] 1 =
      ("CHOC_MAJEUR", "★", "MAJOR") :=
  (classify_severity_precedence ["PEAK", "STA/LTA", "CUSUM", "KURTOSIS"] 1
      (by decide)).1
    ⟨by decide, by with_unfolding_all decide⟩

theorem hrStage_event_ts (P : Params) (d : Det) (mag : ℚ) :
    (hrStage P d mag).event_ts = d.event_ts := rfl

theorem hrStage_last_evt_t (P : Params) (d : Det) (mag : ℚ) :
    (hrStage P d mag).last_evt_t = d.last_evt_t := rfl

theorem rmsStage_event_ts (P : Params) (d : Det) (mag : ℚ) :
    (rmsStage P d mag).event_ts = d.event_ts := by
  simp only [rmsStage]
  split
  · split <;> rfl
  · rfl

theorem rmsStage_last_evt_t (P : Params) (d : Det) (mag : ℚ) :
    (rmsStage P d mag).last_evt_t = d.last_evt_t := by
  simp only [rmsStage]
  split
  · split <;> rfl
  · rfl

theorem staStage_event_ts (d : Det) (mag : ℚ) :
    (staStage d mag).1.event_ts = d.event_ts := by
  simp only [staStage]
  generalize List.finRange 3 = l
  suffices h : ∀ (l : List (Fin 3)) (p : Det × List Detection),
      (l.foldl (fun (p : Det × List Detection) i =>
        let o := staLtaStep i (p.1.sta i) (p.1.lta i) (p.1.sta_lta_active i)
          (mag * mag)
        ({ p.1 with
            sta := Function.update p.1.sta i o.sta
            lta := Function.update p.1.lta i o.lta
            sta_lta_latest := Function.update p.1.sta_lta_latest i o.ratio
            sta_lta_active := Function.update p.1.sta_lta_active i o.active },
          p.2 ++ if o.fired then [Detection.staLta i o.ratio mag] else []))
        p).1.event_ts = p.1.event_ts by
    exact h l (d, [])
  intro l
  induction l with
  | nil => intro p; rfl
  | cons a t ih =>
      intro p
      rw [List.foldl_cons, ih]

theorem staStage_last_evt_t (d : Det) (mag : ℚ) :
    (staStage d mag).1.last_evt_t = d.last_evt_t := by
  simp only [staStage]
  generalize List.finRange 3 = l
  suffices h : ∀ (l : List (Fin 3)) (p : Det × List Detection),
      (l.foldl (fun (p : Det × List Detection) i =>
        let o := staLtaStep i (p.1.sta i) (p.1.lta i) (p.1.sta_lta_active i)
          (mag * mag)
        ({ p.1 with
            sta := Function.update p.1.sta i o.sta
            lta := Function.update p.1.lta i o.lta
            sta_lta_latest := Function.update p.1.sta_lta_latest i o.ratio
            sta_lta_active := Function.update p.1.sta_lta_active i o.active },
          p.2 ++ if o.fired then [Detection.staLta i o.ratio mag] else []))
        p).1.last_evt_t = p.1.last_evt_t by
    exact h l (d, [])
  intro l
  induction l with
  | nil => intro p; rfl
  | cons a t ih =>
      intro p
      rw [List.foldl_cons, ih]

theorem staRingStage_event_ts (d : Det) :
    (staRingStage d).event_ts = d.event_ts := by
  simp only [staRingStage]
  split <;> rfl

theorem staRingStage_last_evt_t (d : Det) :
    (staRingStage d).last_evt_t = d.last_evt_t := by
  simp only [staRingStage]
  split <;> rfl

theorem cusumStage_event_ts (d : Det) (mag : ℚ) :
    (cusumStage d mag).1.event_ts = d.event_ts := rfl

theorem cusumStage_last_evt_t (d : Det) (mag : ℚ) :
    (cusumStage d mag).1.last_evt_t = d.last_evt_t := rfl

theorem kurtStage_event_ts (d : Det) (mag : ℚ) :
    (kurtStage d mag).1.event_ts = d.event_ts := by
  simp only [kurtStage]
  split <;> rfl

theorem kurtStage_last_evt_t (d : Det) (mag : ℚ) :
    (kurtStage d mag).1.last_evt_t = d.last_evt_t := by
  simp only [kurtStage]
  split <;> rfl

theorem peakStage_event_ts (P : Params) (d : Det) (mag : ℚ) :
    (peakStage P d mag).1.event_ts = d.event_ts := by
  simp only [peakStage]
  split <;> rfl

theorem peakStage_last_evt_t (P : Params) (d : Det) (mag : ℚ) :
    (peakStage P d mag).1.last_evt_t = d.last_evt_t := by
  simp only [peakStage]
  split <;> rfl

theorem classify_event_ts (d : Det) (dets : List Detection) (t amp : ℚ) :
    (classify d dets t amp).event_ts = d.event_ts := rfl

theorem classify_last_evt_t (d : Det) (dets : List Detection) (t amp : ℚ) :
    (classify d dets t amp).last_evt_t = d.last_evt_t := rfl

/-- On the non-first-sample path, `process` is `processMain` applied to
the bookkeeping-updated state. -/
theorem process_ready (P : Params) (d : Det) (ax ay az t_now : ℚ)
    (h : d.hp_ready = true) :
    process P d ax ay az t_now =
      processMain P
        { d with
            sample_count := d.sample_count + 1
            latest_raw := (ax, ay, az)
            latest_mag := P.sq (ax * ax + ay * ay + az * az) }
        ax ay az t_now := by
  obtain ⟨x1, x2, x3, hready, x5, x6, x7, x8, x9, x10, x11, x12, x13, x14, x15,
    x16, x17, x18, x19, x20, x21, x22, x23, x24, x25, x26, x27, x28, x29, x30,
    x31, x32, x33, x34, x35, x36, x37, x38, x39, x40, x41, x42, x43, x44,
    x45⟩ := d
  replace h : hready = true := h
  subst h
  rfl

set_option maxHeartbeats 3000000 in
/-- `processMain` either leaves the event-timestamp log and the re-arm
clock unchanged, or — exactly when some detector fired and the re-arm
guard `t_now - last_evt_t > 0.01` passed — appends `t_now` to the log and
makes it the new re-arm clock. -/
theorem processMain_event_cases (P : Params) (d0 : Det) (ax ay az t_now : ℚ) :
    ((processMain P d0 ax ay az t_now).event_ts = d0.event_ts ∧
      (processMain P d0 ax ay az t_now).last_evt_t = d0.last_evt_t) ∨
    (t_now - d0.last_evt_t > 0.01 ∧
      (processMain P d0 ax ay az t_now).event_ts =
        pushCap 200 d0.event_ts t_now ∧
      (processMain P d0 ax ay az t_now).last_evt_t = t_now) := by
  simp only [processMain]
  split
  · next hguard =>
      right
      refine ⟨?_, ?_, ?_⟩
      · have := hguard.2
        rwa [peakStage_last_evt_t, kurtStage_last_evt_t,
          cusumStage_last_evt_t, staRingStage_last_evt_t,
          staStage_last_evt_t, rmsStage_last_evt_t,
          hrStage_last_evt_t] at this
      · rw [classify_event_ts]
        show pushCap 200 _ t_now = _
        rw [peakStage_event_ts, kurtStage_event_ts, cusumStage_event_ts,
          staRingStage_event_ts, staStage_event_ts, rmsStage_event_ts,
          hrStage_event_ts]
      · rw [classify_last_evt_t]
  · left
    constructor
    · rw [peakStage_event_ts, kurtStage_event_ts, cusumStage_event_ts,
        staRingStage_event_ts, staStage_event_ts, rmsStage_event_ts,
        hrStage_event_ts]
    · rw [peakStage_last_evt_t, kurtStage_last_evt_t, cusumStage_last_evt_t,
        staRingStage_last_evt_t, staStage_last_evt_t, rmsStage_last_evt_t,
        hrStage_last_evt_t]

/-- Each `process` call either leaves the event-timestamp log and the
re-arm clock unchanged, or — exactly when some detector fired and the
re-arm guard `t_now - last_evt_t > 0.01` passed — appends `t_now` to the
log and makes it the new re-arm clock. -/
theorem process_event_cases (P : Params) (d : Det) (ax ay az t_now : ℚ) :
    ((process P d ax ay az t_now).event_ts = d.event_ts ∧
      (process P d ax ay az t_now).last_evt_t = d.last_evt_t) ∨
    (t_now - d.last_evt_t > 0.01 ∧
      (process P d ax ay az t_now).event_ts = pushCap 200 d.event_ts t_now ∧
      (process P d ax ay az t_now).last_evt_t = t_now) := by
  by_cases hr : d.hp_ready = false
  · left
    rw [process_not_ready P d ax ay az t_now hr]
    exact ⟨rfl, rfl⟩
  · rw [Bool.not_eq_false] at hr
    rw [process_ready P d ax ay az t_now hr]
    exact processMain_event_cases P _ ax ay az t_now

/-- One `process` call appends at most one timestamp. -/
theorem process_event_ts_growth (P : Params) (d : Det) (ax ay az t_now : ℚ) :
    (process P d ax ay az t_now).event_ts.length ≤ d.event_ts.length + 1 := by
  rcases process_event_cases P d ax ay az t_now with ⟨h, -⟩ | ⟨-, h, -⟩
  · rw [h]
    omega
  · rw [h]
    unfold pushCap
    simp only [List.length_drop, List.length_append, List.length_singleton]
    omega

/-- The gap invariant is preserved along any run. -/
theorem runProcess_event_inv (P : Params) (inputs : List (ℚ × ℚ × ℚ × ℚ)) :
    ∀ d : Det,
      List.Pairwise (fun a b => a + 0.01 < b) d.event_ts →
      (∀ x ∈ d.event_ts, x ≤ d.last_evt_t) →
      List.Pairwise (fun a b => a + 0.01 < b)
        (runProcess P d inputs).event_ts ∧
      (∀ x ∈ (runProcess P d inputs).event_ts,
        x ≤ (runProcess P d inputs).last_evt_t) := by
  induction inputs with
  | nil => exact fun d hp hb => ⟨hp, hb⟩
  | cons inp t ih =>
      intro d hp hb
      rw [runProcess, List.foldl_cons]
      rcases process_event_cases P d inp.1 inp.2.1 inp.2.2.1 inp.2.2.2 with
        ⟨h1, h2⟩ | ⟨hg, h1, h2⟩
      · exact ih _ (h1 ▸ hp) (fun x hx => h2 ▸ hb x (h1 ▸ hx))
      · apply ih
        · rw [h1]
          unfold pushCap
          apply List.Pairwise.sublist (List.drop_sublist _ _)
          rw [List.pairwise_append]
          refine ⟨hp, List.pairwise_singleton _ _, ?_⟩
          intro a ha b hbmem
          rw [List.mem_singleton] at hbmem
          subst hbmem
          have := hb a ha
          linarith [hg]
        · intro x hx
          rw [h1] at hx
          rw [h2]
          unfold pushCap at hx
          have hx2 := List.mem_of_mem_drop hx
          rw [List.mem_append] at hx2
          rcases hx2 with hx2 | hx2
          · have := hb x hx2
            linarith [hg]
          · rw [List.mem_singleton] at hx2
            subst hx2
            exact le_rfl

/-- C6.  Any two timestamps in the event log produced by a run of
`process` calls from the fresh detector (with non-decreasing wall-clock
times, as the claim assumes) are strictly more than 0.01 s apart,
regardless of which detectors triggered; and each call appends at most one
classification record, so triggers within one evaluation and within the
10 ms re-arm window are coalesced or suppressed rather than emitted
separately. -/
theorem event_min_gap (P : Params) (inputs : List (ℚ × ℚ × ℚ × ℚ))
    (hmono : List.Chain' (· ≤ ·) (inputs.map fun x => x.2.2.2)) :
    List.Pairwise (fun a b => a + 0.01 < b)
      (runProcess P initDet inputs).event_ts ∧
    (∀ (d : Det) (ax ay az t_now : ℚ),
      (process P d ax ay az t_now).event_ts.length ≤
        d.event_ts.length + 1) := by
  refine ⟨?_, fun d ax ay az t_now => process_event_ts_growth P d ax ay az t_now⟩
  exact (runProcess_event_inv P inputs initDet (by simp [initDet])
    (by simp [initDet])).1

/-- Witness for `event_min_gap`: a two-sample run with increasing
timestamps. -/
theorem event_min_gap_witness :
    List.Pairwise (fun a b => a + 0.01 < b)
      (runProcess ⟨fun _ => 0, 0, 0⟩ initDet
        [(0, 0, 0, 0), (0, 0, 0, 1)]).event_ts ∧
    (∀ (d : Det) (ax ay az t_now : ℚ),
      (process ⟨fun _ => 0, 0, 0⟩ d ax ay az t_now).event_ts.length ≤
        d.event_ts.length + 1) :=
  event_min_gap ⟨fun _ => 0, 0, 0⟩ [(0, 0, 0, 0), (0, 0, 0, 1)]
    (by norm_num [List.chain'_cons, List.chain'_singleton])

/-- The centered window used by both autocorrelation detectors. -/
def centeredOf (buf : List ℚ) : List ℚ :=
  buf.map fun x => x - buf.sum / (buf.length : ℚ)

/-- The centered-window variance (`var = sum(x*x for x in centered)`). -/
def varOf (buf : List ℚ) : ℚ :=
  ((centeredOf buf).map fun x => x * x).sum

theorem hrStage_lta (P : Params) (d : Det) (mag : ℚ) :
    (hrStage P d mag).lta = d.lta := rfl

theorem rmsStage_lta (P : Params) (d : Det) (mag : ℚ) :
    (rmsStage P d mag).lta = d.lta := by
  simp only [rmsStage]
  split
  · split <;> rfl
  · rfl

theorem staRingStage_lta (d : Det) : (staRingStage d).lta = d.lta := by
  simp only [staRingStage]
  split <;> rfl

theorem cusumStage_lta (d : Det) (mag : ℚ) :
    (cusumStage d mag).1.lta = d.lta := rfl

theorem kurtStage_lta (d : Det) (mag : ℚ) :
    (kurtStage d mag).1.lta = d.lta := by
  simp only [kurtStage]
  split <;> rfl

theorem peakStage_lta (P : Params) (d : Det) (mag : ℚ) :
    (peakStage P d mag).1.lta = d.lta := by
  simp only [peakStage]
  split <;> rfl

theorem classify_lta (d : Det) (dets : List Detection) (t amp : ℚ) :
    (classify d dets t amp).lta = d.lta := rfl

/-- The updated long-term average of one STA/LTA step. -/
theorem staLtaStep_lta (i : Fin 3) (sta lta : ℚ) (active : Bool) (e : ℚ) :
    (staLtaStep i sta lta active e).lta = lta + (e - lta) / lta_n i := by
  simp only [staLtaStep]
  split_ifs <;> rfl

theorem lta_n_ge (i : Fin 3) : (100 : ℚ) ≤ lta_n i := by
  fin_cases i <;> norm_num [lta_n]

/-- A positive long-term average stays positive under one update with a
nonnegative energy. -/
theorem staLtaStep_lta_pos (i : Fin 3) (sta lta : ℚ) (active : Bool) (e : ℚ)
    (hl : 0 < lta) (he : 0 ≤ e) : 0 < (staLtaStep i sta lta active e).lta := by
  rw [staLtaStep_lta]
  have hn := lta_n_ge i
  have hn0 : (0 : ℚ) < lta_n i := by linarith
  have heq : lta + (e - lta) / lta_n i = (lta * (lta_n i - 1) + e) / lta_n i := by
    field_simp
    ring
  rw [heq]
  apply div_pos _ hn0
  nlinarith

theorem staStage_lta_pos (d : Det) (mag : ℚ) (h : ∀ i, 0 < d.lta i) :
    ∀ i, 0 < (staStage d mag).1.lta i := by
  simp only [staStage]
  suffices H : ∀ (l : List (Fin 3)) (p : Det × List Detection),
      (∀ i, 0 < p.1.lta i) → ∀ i,
      0 < (l.foldl (fun (p : Det × List Detection) i =>
        let o := staLtaStep i (p.1.sta i) (p.1.lta i) (p.1.sta_lta_active i)
          (mag * mag)
        ({ p.1 with
            sta := Function.update p.1.sta i o.sta
            lta := Function.update p.1.lta i o.lta
            sta_lta_latest := Function.update p.1.sta_lta_latest i o.ratio
            sta_lta_active := Function.update p.1.sta_lta_active i o.active },
          p.2 ++ if o.fired then [Detection.staLta i o.ratio mag] else []))
        p).1.lta i by
    exact H (List.finRange 3) (d, []) h
  intro l
  induction l with
  | nil => exact fun p hp => hp
  | cons a t ih =>
      intro p hp
      rw [List.foldl_cons]
      apply ih
      intro i
      show 0 < Function.update p.1.lta a _ i
      by_cases hia : i = a
      · subst hia
        rw [Function.update_same]
        exact staLtaStep_lta_pos i (p.1.sta i) (p.1.lta i)
          (p.1.sta_lta_active i) (mag * mag) (hp i) (mul_self_nonneg mag)
      · rw [Function.update_noteq hia]
        exact hp i

set_option maxHeartbeats 3000000 in
/-- `processMain` keeps every long-term average positive. -/
theorem processMain_lta_pos (P : Params) (d0 : Det) (ax ay az t_now : ℚ)
    (h : ∀ i, 0 < d0.lta i) :
    ∀ i, 0 < (processMain P d0 ax ay az t_now).lta i := by
  intro i
  simp only [processMain]
  split
  · rw [classify_lta]
    show 0 < (peakStage _ _ _).1.lta i
    rw [peakStage_lta, kurtStage_lta, cusumStage_lta, staRingStage_lta]
    apply staStage_lta_pos
    intro j
    rw [rmsStage_lta, hrStage_lta]
    exact h j
  · rw [peakStage_lta, kurtStage_lta, cusumStage_lta, staRingStage_lta]
    apply staStage_lta_pos
    intro j
    rw [rmsStage_lta, hrStage_lta]
    exact h j

theorem process_lta_pos (P : Params) (d : Det) (ax ay az t_now : ℚ)
    (h : ∀ i, 0 < d.lta i) :
    ∀ i, 0 < (process P d ax ay az t_now).lta i := by
  by_cases hr : d.hp_ready = false
  · rw [process_not_ready P d ax ay az t_now hr]
    exact h
  · rw [Bool.not_eq_false] at hr
    rw [process_ready P d ax ay az t_now hr]
    exact processMain_lta_pos P _ ax ay az t_now h

theorem runProcess_lta_pos (P : Params) (inputs : List (ℚ × ℚ × ℚ × ℚ)) :
    ∀ d : Det, (∀ i, 0 < d.lta i) →
      ∀ i, 0 < (runProcess P d inputs).lta i := by
  induction inputs with
  | nil => exact fun d h => h
  | cons inp t ih =>
      intro d h
      rw [runProcess, List.foldl_cons]
      exact ih _ (process_lta_pos P d inp.1 inp.2.1 inp.2.2.1 inp.2.2.2 h)

/-- C7.  The numerical-degeneracy guards: both autocorrelation detectors
floor the centered-window variance at `1e-20` and report no result below
it, the variance actually used when they do divide is strictly positive,
and along any run from the fresh detector every STA/LTA long-term average
stays strictly positive, so the per-sample ratio denominator
`lta + 1e-30` is strictly positive at every step (the denominator used by
step `k` is the updated `lta`, which is the stored value of the state
after step `k`). -/
theorem numeric_degeneracy_guards (P : Params) :
    (∀ d : Det, ¬ d.waveform.length < 200 →
      varOf (d.waveform.drop (d.waveform.length - 500)) < 1e-20 →
      (detect_periodicity d).period = none ∧
      (detect_periodicity d).acorr_ring = []) ∧
    (∀ d : Det, ¬ d.hr_buf.length < 500 →
      varOf (d.hr_buf.drop (d.hr_buf.length - 1000)) < 1e-20 →
      (detect_heartbeat d).hr_bpm = none ∧
      (detect_heartbeat d).hr_confidence = 0) ∧
    (∀ buf : List ℚ, ¬ varOf buf < 1e-20 → 0 < varOf buf) ∧
    (∀ (inputs : List (ℚ × ℚ × ℚ × ℚ)) (i : Fin 3),
      0 < (runProcess P initDet inputs).lta i) ∧
    (∀ (inputs : List (ℚ × ℚ × ℚ × ℚ)) (i : Fin 3),
      0 < (runProcess P initDet inputs).lta i + 1e-30) := by
  have hlta : ∀ (inputs : List (ℚ × ℚ × ℚ × ℚ)) (i : Fin 3),
      0 < (runProcess P initDet inputs).lta i := by
    intro inputs i
    apply runProcess_lta_pos P inputs initDet _ i
    intro j
    show (0 : ℚ) < 1e-10
    norm_num
  refine ⟨?_, ?_, ?_, hlta, ?_⟩
  · intro d hlen hvar
    simp only [varOf, centeredOf] at hvar
    simp only [detect_periodicity]
    rw [if_neg hlen, if_pos hvar]
    exact ⟨rfl, rfl⟩
  · intro d hlen hvar
    simp only [varOf, centeredOf] at hvar
    simp only [detect_heartbeat]
    rw [if_neg hlen, if_pos hvar]
    exact ⟨rfl, rfl⟩
  · intro buf h
    have h20 : (0 : ℚ) < 1e-20 := by norm_num
    push_neg at h
    linarith
  · intro inputs i
    have := hlta inputs i
    have h30 : (0 : ℚ) < 1e-30 := by norm_num
    linarith

/-- The best-correlation fold returns an upper bound of `f` over the
scanned lags, is at least its seed, and either returns the seed unchanged
or attains `f` at the returned lag. -/
theorem acorrFold_spec (f : ℕ → ℚ) (ls : List ℕ) :
    ∀ (r0 : ℚ) (l0 : ℕ),
      (∀ lag ∈ ls, f lag ≤ (acorrFold f ls (r0, l0)).1) ∧
      r0 ≤ (acorrFold f ls (r0, l0)).1 ∧
      (acorrFold f ls (r0, l0) = (r0, l0) ∨
        ((acorrFold f ls (r0, l0)).2 ∈ ls ∧
          (acorrFold f ls (r0, l0)).1 = f (acorrFold f ls (r0, l0)).2)) := by
  induction ls with
  | nil =>
      intro r0 l0
      simp [acorrFold]
  | cons a t ih =>
      intro r0 l0
      by_cases h : f a > r0
      · have he : acorrFold f (a :: t) (r0, l0) = acorrFold f t (f a, a) := by
          simp [acorrFold, h]
        rw [he]
        obtain ⟨h1, h2, h3⟩ := ih (f a) a
        refine ⟨?_, le_trans (le_of_lt h) h2, ?_⟩
        · intro lag hl
          rcases List.mem_cons.mp hl with rfl | hl
          · exact h2
          · exact h1 lag hl
        · rcases h3 with h3 | ⟨hm, hv⟩
          · rw [h3]
            exact Or.inr ⟨List.mem_cons_self a t, rfl⟩
          · exact Or.inr ⟨List.mem_cons_of_mem a hm, hv⟩
      · have he : acorrFold f (a :: t) (r0, l0) = acorrFold f t (r0, l0) := by
          simp [acorrFold, h]
        rw [he]
        obtain ⟨h1, h2, h3⟩ := ih r0 l0
        refine ⟨?_, h2, ?_⟩
        · intro lag hl
          rcases List.mem_cons.mp hl with rfl | hl
          · exact le_trans (not_lt.mp h) h2
          · exact h1 lag hl
        · rcases h3 with h3 | ⟨hm, hv⟩
          · exact Or.inl h3
          · exact Or.inr ⟨List.mem_cons_of_mem a hm, hv⟩

/-- The 10 s window `detect_heartbeat` actually scans. -/
def hrWindow (d : Det) : List ℚ := d.hr_buf.drop (d.hr_buf.length - 1000)

/-- The lags `detect_heartbeat` scans: `int(fs*0.3) = 30` up to
`min(int(fs*1.0), n // 2)` exclusive — 0.3 s to just under 1.0 s, i.e.
60–200 BPM. -/
def hrLags (d : Det) : List ℕ :=
  (List.range (min 100 ((hrWindow d).length / 2) - 30)).map fun t => 30 + t

/-- The normalized correlation at one lag. -/
def hrCorr (d : Det) (lag : ℕ) : ℚ :=
  lagProdSum (centeredOf (hrWindow d)) lag / varOf (hrWindow d)

/-- The `(best_r, best_lag)` pair computed by `detect_heartbeat`'s loop. -/
def hrBest (d : Det) : ℚ × ℕ := acorrFold (hrCorr d) (hrLags d) (-1, 30)

/-- C5, amended.  With at least 5 s of samples in the heartbeat buffer,
`detect_heartbeat` searches the normalized autocorrelation of the 10 s
window over the lag range corresponding to 60–200 BPM (0.3 s up to
`min(1.0 s, n/2)`, upper end exclusive): a degenerate variance reports no
heartbeat; otherwise the loop's best value bounds every scanned
correlation and is attained at the returned lag (or no scanned correlation
exceeded the `-1` seed); if it exceeds the threshold 0.15 the detector
reports `BPM = 60 / (best_lag / fs)` with confidence the best correlation
clamped to `[0, 1]`, and at or below the threshold it reports no heartbeat
and confidence 0. -/
theorem detect_heartbeat_spec (d : Det) (hlen : 500 ≤ d.hr_buf.length) :
    (varOf (hrWindow d) < 1e-20 →
      (detect_heartbeat d).hr_bpm = none ∧
      (detect_heartbeat d).hr_confidence = 0) ∧
    (¬ varOf (hrWindow d) < 1e-20 →
      (∀ lag ∈ hrLags d, hrCorr d lag ≤ (hrBest d).1) ∧
      ((hrBest d).1 = -1 ∨
        ((hrBest d).2 ∈ hrLags d ∧ (hrBest d).1 = hrCorr d (hrBest d).2)) ∧
      ((hrBest d).1 > 0.15 →
        (detect_heartbeat d).hr_bpm = some (60 / (((hrBest d).2 : ℚ) / 100)) ∧
        (detect_heartbeat d).hr_confidence = min 1 (hrBest d).1) ∧
      (¬ (hrBest d).1 > 0.15 →
        (detect_heartbeat d).hr_bpm = none ∧
        (detect_heartbeat d).hr_confidence = 0)) := by
  have hnot : ¬ d.hr_buf.length < 500 := not_lt.mpr hlen
  have hwlen : (hrWindow d).length = d.hr_buf.length - (d.hr_buf.length - 1000) := by
    simp [hrWindow]
  have hmin : min 100 ((hrWindow d).length / 2) = 100 := by
    rw [hwlen]
    omega
  constructor
  · intro hvar
    have hvar' := hvar
    simp only [hrWindow, varOf, centeredOf] at hvar'
    simp only [detect_heartbeat]
    rw [if_neg hnot, if_pos hvar']
    exact ⟨rfl, rfl⟩
  · intro hvar
    have hvar' := hvar
    simp only [hrWindow, varOf, centeredOf] at hvar'
    have hlagguard : ¬ (30 : ℕ) ≥ min 100
        ((d.hr_buf.drop (d.hr_buf.length - 1000)).length / 2) := by
      have := hmin
      simp only [hrWindow] at this
      rw [this]
      omega
    have heval : detect_heartbeat d =
        (if (hrBest d).1 > 0.15 then
          { d with
              hr_bpm := some (60 / (((hrBest d).2 : ℚ) / 100))
              hr_confidence := min 1 (hrBest d).1 }
        else { d with hr_bpm := none, hr_confidence := 0 }) := by
      simp only [detect_heartbeat]
      rw [if_neg hnot, if_neg hvar', if_neg hlagguard]
      rfl
    obtain ⟨b1, b2, b3⟩ := acorrFold_spec (hrCorr d) (hrLags d) (-1) 30
    refine ⟨b1, ?_, ?_, ?_⟩
    · rcases b3 with b3 | b3
      · left
        rw [show hrBest d = acorrFold (hrCorr d) (hrLags d) (-1, 30) from rfl, b3]
      · right
        exact b3
    · intro hb
      rw [heval, if_pos hb]
      exact ⟨rfl, rfl⟩
    · intro hb
      rw [heval, if_neg hb]
      exact ⟨rfl, rfl⟩

/-- The concrete detector state used to separate the code's 60–200 BPM lag
range from the claim's 50–200 BPM range: a 500-sample buffer with impulses
every 110 samples (a 54.5 BPM periodicity, inside 50–200 BPM but outside
60–200 BPM). -/
def pulseDet : Det := { initDet with hr_buf := pulseBuf }

/-- Witness for `detect_heartbeat_spec` at the impulse-train buffer. -/
theorem detect_heartbeat_spec_witness :
    (varOf (hrWindow pulseDet) < 1e-20 →
      (detect_heartbeat pulseDet).hr_bpm = none ∧
      (detect_heartbeat pulseDet).hr_confidence = 0) ∧
    (¬ varOf (hrWindow pulseDet) < 1e-20 →
      (∀ lag ∈ hrLags pulseDet, hrCorr pulseDet lag ≤ (hrBest pulseDet).1) ∧
      ((hrBest pulseDet).1 = -1 ∨
        ((hrBest pulseDet).2 ∈ hrLags pulseDet ∧
          (hrBest pulseDet).1 = hrCorr pulseDet (hrBest pulseDet).2)) ∧
      ((hrBest pulseDet).1 > 0.15 →
        (detect_heartbeat pulseDet).hr_bpm =
          some (60 / (((hrBest pulseDet).2 : ℚ) / 100)) ∧
        (detect_heartbeat pulseDet).hr_confidence =
          min 1 (hrBest pulseDet).1) ∧
      (¬ (hrBest pulseDet).1 > 0.15 →
        (detect_heartbeat pulseDet).hr_bpm = none ∧
        (detect_heartbeat pulseDet).hr_confidence = 0)) :=
  detect_heartbeat_spec pulseDet (by decide)

/-- The lag list of the claim-side `detect_heartbeat_claim50`: up to
`min(fs * 60/50, n // 2) = min 120 (n // 2)` inclusive, the lags mapping
to 50–200 BPM. -/
def hrLags50 (d : Det) : List ℕ :=
  (List.range (min 121 ((hrWindow d).length / 2) - 30)).map fun t => 30 + t

/-- C5, counterexample.  At a 500-sample buffer, the lag set
`detect_heartbeat` scans (`hrLags`, which `detect_heartbeat_spec` proves
is exactly the set its result is computed from) excludes lag 110, although
lag 110 corresponds to 600/11 ≈ 54.5 BPM, squarely inside 50–200 BPM (the
claim-side scan `hrLags50` does contain it); indeed every lag the code
scans corresponds to a BPM strictly above 60.  So `detect_heartbeat` does
not search the lag range corresponding to 50–200 BPM. -/
theorem heartbeat_lag_range_counterexample :
    (110 : ℕ) ∉ hrLags pulseDet ∧
    (110 : ℕ) ∈ hrLags50 pulseDet ∧
    (50 ≤ 60 / (((110 : ℕ) : ℚ) / 100) ∧ 60 / (((110 : ℕ) : ℚ) / 100) ≤ 200) ∧
    (∀ lag ∈ hrLags pulseDet, 60 < 60 / ((lag : ℚ) / 100)) := by
  refine ⟨?_, ?_, ?_, ?_⟩
  · with_unfolding_all decide
  · with_unfolding_all decide
  · constructor <;> with_unfolding_all decide
  · with_unfolding_all decide

end Motion
